import Mathlib

/-!
# Stately.js: the event-dispatch and transition engine

A shallow embedding of `src/Stately.js` (version 0.9.5).

Modelling conventions.

* An object literal is the finite map of its own properties, kept as an
  association list in enumeration order.  The registry `statesStore` is read
  with the names that it inherits from the host's `Object.prototype`
  (`storeHas`, line 89).  The members that the facade inherits from there are
  not modelled; the lemmas on the root of a chain are stated for event names
  outside `objectPrototype`.
* Every entry of the state specification is an object of its own; the object
  held under key `k` is `Val.state k`.  Any other object is `Val.object`.  A
  specification that holds one object under two keys is not modelled.
* The facade starts with the one property `getMachineState` (lines 49-56), and
  an event of that name is decorated over it like over any earlier decorator.
  `getMachineState m` below is the function of lines 52-54 itself.
* A handler is a function of the call arguments.  It gets the registry as
  receiver, which is fixed once the constructor returns.  In `Machine.dispatch`
  it does not call back into the machine; `dispatchN` is the dispatch for
  handlers that call the facade before they return.
* The `onTransition` callback is an observer: every call of it is recorded in
  the machine's trace, next to the handler invocations.
-/

namespace StatelyJS

/-! ## Values -/

/-- Primitive values (numbers are left out). -/
inductive Prim where
  | undefined
  | null
  | bool (b : Bool)
  | str (s : String)
  deriving DecidableEq, Repr

/-- Values a handler can return and the current-state variable can hold. -/
inductive Val where
  /-- a primitive value -/
  | prim (p : Prim)
  /-- the state object that the specification holds under `key`; for a key
  that the specification does not have, an object outside the registry whose
  `name` is `key` -/
  | state (key : String)
  /-- any other object, with its identity and the value of its `name` property -/
  | object (id : Nat) (name : Prim)
  deriving DecidableEq, Repr

/-- Truthiness of a primitive (`!!p`). -/
def Prim.truthy : Prim → Bool
  | .undefined => false
  | .null => false
  | .bool b => b
  | .str s => decide (s ≠ "")

/-- Truthiness of a value (`!!v`): every object is truthy. -/
def Val.truthy : Val → Bool
  | .prim p => p.truthy
  | .state _ => true
  | .object _ _ => true

/-- String conversion of a primitive, as done by `+` and by property access. -/
def Prim.toStr : Prim → String
  | .undefined => "undefined"
  | .null => "null"
  | .bool true => "true"
  | .bool false => "false"
  | .str s => s

/-- The expression `v.name` for a value that is neither `undefined` nor `null`:
a state object carries its key (line 156), another object its own `name`, and
a primitive has none. -/
def Val.name : Val → Prim
  | .prim _ => .undefined
  | .state key => .str key
  | .object _ name => name

/-! ## Errors and completions -/

/-- What a call can throw: the two exported exceptions, the host's `TypeError`
for a property read on `undefined` or a call of a non-function, and the host's
`RangeError` for a call stack that is used up. -/
inductive Error where
  | InvalidEventError (message : String)
  | InvalidStateError (message : String)
  | TypeError
  | RangeError
  deriving DecidableEq, Repr

/-- Outcome of a call: a returned value or a thrown error. -/
inductive Completion (α : Type) where
  | normal (value : α)
  | throw (error : Error)
  deriving DecidableEq, Repr

/-- Value returned by a member of the facade: the facade itself
(`return stateMachine`) or a primitive (`return currentState.name`). -/
inductive Ret where
  | stateMachine
  | value (p : Prim)
  deriving DecidableEq, Repr

/-- Truthiness of a returned value. -/
def Ret.truthy : Ret → Bool
  | .stateMachine => true
  | .value p => p.truthy

/-- The expression `currentState.name`: a `TypeError` on `undefined` and `null`. -/
def readName : Val → Completion Prim
  | .prim .undefined => .throw .TypeError
  | .prim .null => .throw .TypeError
  | v => .normal v.name

/-! ## The specification -/

/-- An event handler: its source text (what string concatenation shows of a
function) and its result on given arguments. -/
structure Handler where
  source : String
  apply : List Val → Val

/-- Value of a property of a state object: a function or anything else. -/
inductive PropVal where
  | fn (h : Handler)
  | data (v : Val)

/-- The test `toString.call (x) === '[object Function]'`. -/
def PropVal.isFunction : PropVal → Bool
  | .fn _ => true
  | .data _ => false

/-- A state object: its own properties. -/
abbrev StateObj := List (String × PropVal)

/-- The `states` argument: its own properties in enumeration order. -/
abbrev States := List (String × StateObj)

/-- A transition callback, known by a label. -/
inductive Callback where
  | default
  | user (id : Nat)
  deriving DecidableEq, Repr

/-- The `options` argument. -/
inductive Options where
  /-- a function -/
  | function (cb : Callback)
  /-- a plain object; `none` stands for a key the object does not have -/
  | object (onTransition : Option Callback) (invalidEventErrors : Option Bool)
  /-- anything else, `undefined` included -/
  | other

/-- The variable `stateOptions`. -/
structure StateOptions where
  onTransition : Callback
  invalidEventErrors : Bool
  deriving DecidableEq, Repr

/-- Lines 36-40 and 113-131: the defaults, overridden by `options`. -/
def handleOptions : Options → StateOptions
  | .function cb => { onTransition := cb, invalidEventErrors := false }
  | .object onTransition invalidEventErrors =>
      { onTransition := onTransition.getD .default,
        invalidEventErrors := invalidEventErrors.getD false }
  | .other => { onTransition := .default, invalidEventErrors := false }

/-! ## The facade and the machine -/

/-- Value of a property of the facade `stateMachine`. -/
inductive Member where
  /-- no such property: `undefined` -/
  | absent
  /-- the function of lines 52-54 -/
  | getMachineState
  /-- the decorator that `transition (stateName, eventName, nextEvent)` returns -/
  | transition (stateName eventName : String) (nextEvent : Member)
  deriving DecidableEq, Repr

/-- Truthiness of a member. -/
def Member.truthy : Member → Bool
  | .absent => false
  | _ => true

/-- What a dispatch does that can be seen from outside. -/
inductive Effect where
  /-- the handler of `stateName` for `eventName` was applied to `args` (line 83) -/
  | handler (stateName eventName : String) (args : List Val)
  /-- `stateOptions.onTransition` was called (lines 103 and 171) -/
  | onTransition (callback : Callback) (eventName lastState nextState : Prim)
  deriving DecidableEq, Repr

/-- The variables of one `Stately` call. -/
structure Machine where
  stateOptions : StateOptions
  /-- the registry `statesStore` -/
  statesStore : List (String × StateObj)
  /-- the facade `stateMachine` -/
  stateMachine : List (String × Member)
  currentState : Val
  /-- effects so far, oldest first -/
  trace : List Effect

/-- Property read `o[key]` on an association list. -/
def getProp {α : Type} (o : List (String × α)) (key : String) : Option α :=
  match o with
  | [] => none
  | (k, v) :: rest => if k = key then some v else getProp rest key

/-- Property write `o[key] = value`: in place when the key exists, else appended. -/
def setProp {α : Type} (o : List (String × α)) (key : String) (value : α) :
    List (String × α) :=
  match o with
  | [] => [(key, value)]
  | (k, v) :: rest =>
      if k = key then (k, value) :: rest else (k, v) :: setProp rest key value

/-- The expression `stateMachine[eventName]`. -/
def getMember (stateMachine : List (String × Member)) (eventName : String) : Member :=
  (getProp stateMachine eventName).getD .absent

/-- Message of line 75. -/
def invalidEventMessage (eventName : String) (name : Prim) : String :=
  "Stately.js: Invalid event: `" ++ eventName ++ "` for current state: `" ++
    name.toStr ++ "`."

/-- Message of line 92: it shows `statesStore[stateName][eventName]`, the handler. -/
def invalidStateMessage (h : Handler) : String :=
  "Stately.js: Transitioned into invalid state: `" ++ h.source ++ "`."

/-- The property names that every plain object inherits from the host's
`Object.prototype`; each of them holds a function, and `__proto__` an object. -/
def objectPrototype : List String :=
  ["constructor", "toString", "toLocaleString", "valueOf", "hasOwnProperty",
   "isPrototypeOf", "propertyIsEnumerable", "__proto__", "__defineGetter__",
   "__defineSetter__", "__lookupGetter__", "__lookupSetter__"]

/-- Truthiness of `statesStore[key]`. The registry is a plain object (line 46):
its own properties are the state objects, and a key that it does not have
itself is looked up in `Object.prototype`. -/
def storeHas (statesStore : List (String × StateObj)) (key : String) : Bool :=
  (getProp statesStore key).isSome || objectPrototype.contains key

/-- The test of line 89: `!nextState || !nextState.name || !statesStore[nextState.name]`. -/
def invalidNextState (statesStore : List (String × StateObj)) (nextState : Val) : Bool :=
  !nextState.truthy || !nextState.name.truthy ||
    !storeHas statesStore nextState.name.toStr

/-- Lines 68-79 after the chain was tried: throw when nothing handled the event
and the options ask for it, else return the facade. -/
def notHandled (m : Machine) (eventName : String) (handled : Bool) :
    Completion Ret × Machine :=
  if !handled && m.stateOptions.invalidEventErrors then
    match readName m.currentState with
    | .normal name => (.throw (.InvalidEventError (invalidEventMessage eventName name)), m)
    | .throw e => (.throw e, m)
  else (.normal .stateMachine, m)

/-- Lines 83-108: run the handler of the current state and move to its result. -/
def runEvent (m : Machine) (stateName eventName : String) (args : List Val) :
    Completion Ret × Machine :=
  match (getProp m.statesStore stateName).bind (fun o => getProp o eventName) with
  | some (.fn h) =>
      let nextState := h.apply args
      let lastState := m.currentState
      let m1 := { m with trace := m.trace ++ [.handler stateName eventName args] }
      if invalidNextState m.statesStore nextState then
        (.throw (.InvalidStateError (invalidStateMessage h)), m1)
      else
        let m2 := { m1 with currentState := nextState }
        if lastState ≠ nextState then
          (.normal .stateMachine,
            { m2 with trace := m2.trace ++
                [.onTransition m.stateOptions.onTransition (.str eventName)
                  lastState.name nextState.name] })
        else (.normal .stateMachine, m2)
  | _ => (.throw .TypeError, m)

/-- Calling a member of the facade with `args`. -/
def Member.call (m : Machine) : Member → List Val → Completion Ret × Machine
  | .absent, _ => (.throw .TypeError, m)
  | .getMachineState, _ =>
      match readName m.currentState with
      | .normal name => (.normal (.value name), m)
      | .throw e => (.throw e, m)
  | .transition stateName eventName nextEvent, args =>
      if Val.state stateName ≠ m.currentState then
        match nextEvent with
        | .absent => notHandled m eventName false
        | nextEvent =>
            match nextEvent.call m args with
            | (.normal r, m1) => notHandled m1 eventName r.truthy
            | (.throw e, m1) => (.throw e, m1)
      else runEvent m stateName eventName args

/-- The function of lines 52-54, the facade's own `getMachineState`. -/
def getMachineState (m : Machine) : Completion Prim :=
  readName m.currentState

/-- A call `facade.eventName (args)`. -/
def Machine.dispatch (m : Machine) (eventName : String) (args : List Val) :
    Completion Ret × Machine :=
  (getMember m.stateMachine eventName).call m args

/-- The handler that line 83 finds: `statesStore[stateName][eventName]`, when it
is a function. -/
def Machine.handler (m : Machine) (stateName eventName : String) : Option Handler :=
  match (getProp m.statesStore stateName).bind (fun o => getProp o eventName) with
  | some (.fn h) => some h
  | _ => none

/-! ## The constructor -/

/-- The variables that the loop of lines 134-168 assigns. -/
structure Build where
  statesStore : List (String × StateObj)
  stateMachine : List (String × Member)
  currentState : Val

/-- Lines 36-56: the variables before the loop. -/
def Build.init : Build :=
  { statesStore := [],
    stateMachine := [("getMachineState", .getMachineState)],
    currentState := .prim .undefined }

/-- Lines 143-153: decorate every function-valued property of the state. -/
def registerEvents (stateName : String) (props : StateObj)
    (stateMachine : List (String × Member)) : List (String × Member) :=
  match props with
  | [] => stateMachine
  | (eventName, v) :: rest =>
      if v.isFunction then
        registerEvents stateName rest
          (setProp stateMachine eventName
            (.transition stateName eventName (getMember stateMachine eventName)))
      else registerEvents stateName rest stateMachine

/-- Lines 137-166: one round of the loop over `states`. -/
def registerState (b : Build) (entry : String × StateObj) : Build :=
  { statesStore :=
      setProp b.statesStore entry.1
        (setProp entry.2 "name" (.data (.prim (.str entry.1)))),
    stateMachine := registerEvents entry.1 entry.2 b.stateMachine,
    currentState := if !b.currentState.truthy then .state entry.1 else b.currentState }

/-- Lines 134-168: the loop over `states`. -/
def registerStates (b : Build) : States → Build
  | [] => b
  | entry :: rest => registerStates (registerState b entry) rest

/-- The constructor `Stately (states, options)`, lines 34-175. -/
def Stately (states : States) (options : Options) : Completion Machine :=
  let b := registerStates Build.init states
  match readName b.currentState with
  | .throw e => .throw e
  | .normal name =>
      .normal
        { stateOptions := handleOptions options,
          statesStore := b.statesStore,
          stateMachine := b.stateMachine,
          currentState := b.currentState,
          trace := [.onTransition (handleOptions options).onTransition
            .undefined .undefined name] }

/-- A value that is an object. -/
def Val.isObject : Val → Bool
  | .prim _ => false
  | _ => true

/-- A machine that `Stately (states, options)` made, at any later moment: the
closure is as the constructor left it, the current state is some object, and
the trace is anything. -/
def Built (states : States) (options : Options) (m : Machine) : Prop :=
  m.stateOptions = handleOptions options ∧
  m.statesStore = (registerStates Build.init states).statesStore ∧
  m.stateMachine = (registerStates Build.init states).stateMachine ∧
  m.currentState.isObject = true

/-- The machine of `Stately (states, options)` with `currentState` as current
state and an empty trace. -/
def machineAt (states : States) (options : Options) (currentState : Val) : Machine :=
  { stateOptions := handleOptions options,
    statesStore := (registerStates Build.init states).statesStore,
    stateMachine := (registerStates Build.init states).stateMachine,
    currentState := currentState,
    trace := [] }

/-- A sequence of calls on the facade, each one made whatever the one before
it returned or threw. -/
def Machine.run (m : Machine) : List (String × List Val) → Machine
  | [] => m
  | (eventName, args) :: rest => ((m.dispatch eventName args).2).run rest

/-- The effect is a handler invocation. -/
def Effect.isHandler : Effect → Bool
  | .handler _ _ _ => true
  | .onTransition _ _ _ _ => false

/-! ## Example specifications -/

/-- A handler that returns `v` whatever its arguments. -/
def returning (v : Val) : Handler :=
  { source := "function () \x7b return " ++ v.name.toStr ++ "; \x7d",
    apply := fun _ => v }

/-- The turnstile: `locked` takes a coin, `unlocked` takes a push. -/
def turnstile : States :=
  [("locked", [("coin", .fn (returning (.state "unlocked")))]),
   ("unlocked", [("push", .fn (returning (.state "locked")))])]

/-- Two states, the second one registered under the empty name; `go` of `a`
returns that second state. -/
def emptyNamed : States :=
  [("a", [("go", .fn (returning (.state "")))]),
   ("", [("back", .fn (returning (.state "a")))])]

/-- Two states; the second one defines an event called `getMachineState`. -/
def shadowing : States :=
  [("a", [("go", .fn (returning (.state "b")))]),
   ("b", [("getMachineState", .fn (returning (.state "a")))])]

/-- The turnstile with one more event on `unlocked`, called `getMachineState`. -/
def shadowedTurnstile : States :=
  [("locked", [("coin", .fn (returning (.state "unlocked")))]),
   ("unlocked", [("push", .fn (returning (.state "locked"))),
                 ("getMachineState", .fn (returning (.state "unlocked")))])]

/-- The options object with `invalidEventErrors` set to `true`. -/
def withErrors : Options := .object none (some true)

/-- State `a` has three handlers with a result that is no state of the
machine: `go` returns another object that carries the name `b`, `stray` an
object with a name that no state has, `lose` returns `undefined`. -/
def foreigner : States :=
  [("a", [("go", .fn (returning (.object 7 (.str "b")))),
          ("stray", .fn (returning (.object 8 (.str "nowhere")))),
          ("lose", .fn (returning (.prim .undefined)))]),
   ("b", [("back", .fn (returning (.state "a")))])]

/-- The handler of `a` for `go` returns an object named `toString`, a name that
no state has. -/
def inheritedName : States :=
  [("a", [("go", .fn (returning (.object 7 (.str "toString"))))]),
   ("b", [("back", .fn (returning (.state "a")))])]

/-- Two states that both define an event called `name`. -/
def namedPair : States :=
  [("a", [("name", .fn (returning (.state "b")))]),
   ("b", [("name", .fn (returning (.state "a")))])]

/-- Three states that all define `next`, and the last one also `stay`. -/
def ring : States :=
  [("a", [("next", .fn (returning (.state "b")))]),
   ("b", [("next", .fn (returning (.state "c")))]),
   ("c", [("next", .fn (returning (.state "a"))),
          ("stay", .fn (returning (.state "c")))])]

/-! ## Reading a member as a chain -/

/-- The states whose decorators make up a member, outermost (last registered)
first. -/
def Member.owners : Member → List String
  | .transition stateName _ nextEvent => stateName :: nextEvent.owners
  | _ => []

/-- What the innermost decorator of a member has as `nextEvent`. -/
def Member.root : Member → Member
  | .transition _ _ nextEvent => nextEvent.root
  | m => m

/-- Every decorator of the member was made for the event `eventName`. -/
def Member.ForEvent (eventName : String) : Member → Prop
  | .transition _ e nextEvent => e = eventName ∧ nextEvent.ForEvent eventName
  | _ => True

/-- What lines 143-153 do to the member `eventName` of the facade, for one state. -/
def decorate (stateName eventName : String) : StateObj → Member → Member
  | [], mem => mem
  | (e, v) :: rest, mem =>
      if v.isFunction ∧ e = eventName then
        decorate stateName eventName rest (.transition stateName eventName mem)
      else decorate stateName eventName rest mem

/-- What the loop of lines 134-168 does to the member `eventName` of the facade. -/
def chainOf (eventName : String) : States → Member → Member
  | [], mem => mem
  | (stateName, o) :: rest, mem =>
      chainOf eventName rest (decorate stateName eventName o mem)

/-- The member `eventName` of the facade before the loop (lines 49-56). -/
def initialMember (eventName : String) : Member :=
  if eventName = "getMachineState" then .getMachineState else .absent

/-- Outcome of a chain in which no decorator belongs to the current state, by
the root of the chain. -/
def unhandled (m : Machine) (eventName : String) : Member → Completion Ret × Machine
  | .getMachineState =>
      match readName m.currentState with
      | .normal name => notHandled m eventName name.truthy
      | .throw e => (.throw e, m)
  | _ => notHandled m eventName false

/-- The state `stateName` of the specification has a function under `eventName`. -/
def Defines (states : States) (stateName eventName : String) : Prop :=
  ∃ o v, (stateName, o) ∈ states ∧ (eventName, v) ∈ o ∧ v.isFunction = true

/-! ## Chained and sequential calls -/

/-- The expression `facade.a (argsA).b (argsB)`: the second call is made on
what the first one returned, and a primitive has no method to call. -/
def chained (m : Machine) (a : String) (argsA : List Val) (b : String)
    (argsB : List Val) : Completion Ret × Machine :=
  match m.dispatch a argsA with
  | (.normal .stateMachine, m1) => m1.dispatch b argsB
  | (.normal (.value _), m1) => (.throw .TypeError, m1)
  | (.throw err, m1) => (.throw err, m1)

/-- The statements `facade.a (argsA); facade.b (argsB);`: the second call is
made on the facade, unless the first one threw. -/
def sequential (m : Machine) (a : String) (argsA : List Val) (b : String)
    (argsB : List Val) : Completion Ret × Machine :=
  match m.dispatch a argsA with
  | (.normal _, m1) => m1.dispatch b argsB
  | (.throw err, m1) => (.throw err, m1)

/-- What each call of a run returned or threw, in order. -/
def Machine.results (m : Machine) : List (String × List Val) → List (Completion Ret)
  | [] => []
  | (eventName, args) :: rest =>
      (m.dispatch eventName args).1 :: ((m.dispatch eventName args).2).results rest

/-- A handler that returns its first argument. -/
def echo : Handler :=
  { source := "function (x) \x7b return x; \x7d",
    apply := fun args => args.headD (.prim .undefined) }

/-- State `a` moves to whatever `to` is called with. -/
def echoing : States :=
  [("a", [("to", .fn echo)]),
   ("b", [("to", .fn echo)])]

/-- A state with a function, a property that is no function, and a property
called like the event of another state. -/
def mixed : States :=
  [("a", [("go", .fn (returning (.state "b"))),
          ("label", .data (.prim (.str "first"))),
          ("back", .data (.prim (.bool true)))]),
   ("b", [("back", .fn (returning (.state "a"))),
          ("go", .fn (returning (.state "b")))])]

/-! ## The list-walk dispatcher of the specification

Section 9 of the specification asks for the chain of decorators to be kept as
"an ordered list, per event name, of (state, handler) pairs in registration
order; dispatch walks this list looking for the pair whose state matches the
current state". The definitions below follow these words, to be compared with
`Machine.dispatch`. -/

/-- The pairs that one state adds to the list of `eventName`. -/
def pairsIn (stateName eventName : String) : StateObj → List (String × Handler)
  | [] => []
  | (e, .fn h) :: rest =>
      if e = eventName then (stateName, h) :: pairsIn stateName eventName rest
      else pairsIn stateName eventName rest
  | (_, .data _) :: rest => pairsIn stateName eventName rest

/-- The list of `(state, handler)` pairs of `eventName`, in registration order. -/
def pairsOf (eventName : String) : States → List (String × Handler)
  | [] => []
  | (stateName, o) :: rest => pairsIn stateName eventName o ++ pairsOf eventName rest

/-- The walk: the first pair whose state is the current state. -/
def findCurrent (currentState : Val) : List (String × Handler) → Option (String × Handler)
  | [] => none
  | (stateName, h) :: rest =>
      if Val.state stateName = currentState then some (stateName, h)
      else findCurrent currentState rest

/-- Run the handler of the pair found, validate and commit its result, and
notify when the state changed. -/
def commit (m : Machine) (stateName eventName : String) (h : Handler) (args : List Val) :
    Completion Ret × Machine :=
  if invalidNextState m.statesStore (h.apply args) then
    (.throw (.InvalidStateError (invalidStateMessage h)),
      { m with trace := m.trace ++ [.handler stateName eventName args] })
  else
    (.normal .stateMachine,
      { m with
        currentState := h.apply args,
        trace := m.trace ++ .handler stateName eventName args ::
          (if m.currentState ≠ h.apply args then
            [.onTransition m.stateOptions.onTransition (.str eventName)
              m.currentState.name (h.apply args).name]
          else []) })

/-- The list-walk dispatcher: run the pair of the current state if there is
one; else throw `InvalidEventError` when `invalidEventErrors` is on, and return
the facade unchanged when it is off. -/
def listWalk (states : States) (m : Machine) (eventName : String) (args : List Val) :
    Completion Ret × Machine :=
  match findCurrent m.currentState (pairsOf eventName states) with
  | some (stateName, h) => commit m stateName eventName h args
  | none =>
      if m.stateOptions.invalidEventErrors then
        (.throw (.InvalidEventError (invalidEventMessage eventName m.currentState.name)), m)
      else (.normal .stateMachine, m)

/-- What holds of every object literal: the keys of the specification are
distinct, and so are the property names of each state. -/
def WellFormed (states : States) : Prop :=
  (states.map Prod.fst).Nodup ∧ ∀ k o, (k, o) ∈ states → (o.map Prod.fst).Nodup

/-- One state with an event called `name`. -/
def named : States :=
  [("a", [("name", .fn (returning (.state "a")))])]

/-- Two machines that cannot be told apart from outside: same options, same
current state, same trace, and registries that hold the same object under every
key. -/
def Alike (m1 m2 : Machine) : Prop :=
  m1.stateOptions = m2.stateOptions ∧
  m1.currentState = m2.currentState ∧
  m1.trace = m2.trace ∧
  ∀ k, getProp m1.statesStore k = getProp m2.statesStore k

/-- The states of `ring`, the last two in the other order. -/
def ringSwapped : States :=
  [("a", [("next", .fn (returning (.state "b")))]),
   ("c", [("next", .fn (returning (.state "a"))),
          ("stay", .fn (returning (.state "c")))]),
   ("b", [("next", .fn (returning (.state "c")))])]

/-! ## Handlers that call the facade -/

/-- The calls that the handlers make on the facade before they return: for the
handler of `stateName` for `eventName`, applied to `args`, the event names and
arguments of its calls, in order. An error that such a call throws is not
caught by the handler. -/
abbrev Nesting := String → String → List Val → List (String × List Val)

/-- Calling a member of the facade, with `run` for lines 83-108. -/
def Member.callWith (run : Machine → String → String → List Val → Completion Ret × Machine)
    (m : Machine) : Member → List Val → Completion Ret × Machine
  | .absent, _ => (.throw .TypeError, m)
  | .getMachineState, _ =>
      match readName m.currentState with
      | .normal name => (.normal (.value name), m)
      | .throw e => (.throw e, m)
  | .transition stateName eventName nextEvent, args =>
      if Val.state stateName ≠ m.currentState then
        match nextEvent with
        | .absent => notHandled m eventName false
        | nextEvent =>
            match nextEvent.callWith run m args with
            | (.normal r, m1) => notHandled m1 eventName r.truthy
            | (.throw e, m1) => (.throw e, m1)
      else run m stateName eventName args

/-- The calls of one handler on the facade, one after the other, up to the
first one that throws. -/
def nestedCalls (dispatch : Machine → String → List Val → Completion Ret × Machine)
    (m : Machine) : List (String × List Val) → Completion Unit × Machine
  | [] => (.normal (), m)
  | (eventName, args) :: rest =>
      match dispatch m eventName args with
      | (.normal _, m1) => nestedCalls dispatch m1 rest
      | (.throw e, m1) => (.throw e, m1)

/-- Lines 83-108 for a handler that calls the facade: line 83 runs the handler,
and with it its calls; line 86 reads `currentState` after that. -/
def runEventN (nesting : Nesting)
    (dispatch : Machine → String → List Val → Completion Ret × Machine)
    (m : Machine) (stateName eventName : String) (args : List Val) :
    Completion Ret × Machine :=
  match (getProp m.statesStore stateName).bind (fun o => getProp o eventName) with
  | some (.fn h) =>
      match nestedCalls dispatch
          { m with trace := m.trace ++ [.handler stateName eventName args] }
          (nesting stateName eventName args) with
      | (.throw e, m1) => (.throw e, m1)
      | (.normal _, m1) =>
          let nextState := h.apply args
          let lastState := m1.currentState
          if invalidNextState m1.statesStore nextState then
            (.throw (.InvalidStateError (invalidStateMessage h)), m1)
          else
            let m2 := { m1 with currentState := nextState }
            if lastState ≠ nextState then
              (.normal .stateMachine,
                { m2 with trace := m2.trace ++
                    [.onTransition m1.stateOptions.onTransition (.str eventName)
                      lastState.name nextState.name] })
            else (.normal .stateMachine, m2)
  | _ => (.throw .TypeError, m)

/-- A call `facade.eventName (args)` when handlers call the facade; `fuel` is
the depth of call stack that is left. -/
def dispatchN (nesting : Nesting) :
    Nat → Machine → String → List Val → Completion Ret × Machine
  | 0, m, _, _ => (.throw .RangeError, m)
  | fuel + 1, m, eventName, args =>
      (getMember m.stateMachine eventName).callWith
        (runEventN nesting (dispatchN nesting fuel)) m args

/-- State `a` with three events: `hop` moves to `b`, `start` moves to `c` and
`settle` to `b`. -/
def relay : States :=
  [("a", [("hop", .fn (returning (.state "b"))),
          ("start", .fn (returning (.state "c"))),
          ("settle", .fn (returning (.state "b")))]),
   ("b", [("hop", .fn (returning (.state "a")))]),
   ("c", [])]

/-- In `relay`, the handlers of `a` for `start` and for `settle` first call
`facade.hop ()`. -/
def relayNesting : Nesting :=
  fun stateName eventName _ =>
    if stateName = "a" ∧ (eventName = "start" ∨ eventName = "settle") then [("hop", [])]
    else []

/-- The second machine has the closure of the first: same options, same
registry, same facade. -/
def SameClosure (m m' : Machine) : Prop :=
  m'.stateOptions = m.stateOptions ∧ m'.statesStore = m.statesStore ∧
    m'.stateMachine = m.stateMachine

/-! ## Property reads and writes -/

theorem getProp_setProp {α : Type} (o : List (String × α)) (k k' : String) (v : α) :
    getProp (setProp o k v) k' = if k = k' then some v else getProp o k' := by
  induction o with
  | nil => simp [setProp, getProp]
  | cons p rest ih =>
      obtain ⟨k0, v0⟩ := p
      by_cases h0 : k0 = k
      · subst h0
        by_cases h1 : k0 = k' <;> simp [setProp, getProp, h1]
      · by_cases h1 : k0 = k'
        · subst h1
          have h2 : ¬ k = k0 := fun h => h0 h.symm
          simp [setProp, getProp, h0, h2]
        · simp [setProp, getProp, h0, h1, ih]

theorem getProp_mem {α : Type} (o : List (String × α)) (k : String) (v : α)
    (h : getProp o k = some v) : (k, v) ∈ o := by
  induction o with
  | nil => simp [getProp] at h
  | cons p rest ih =>
      obtain ⟨k0, v0⟩ := p
      by_cases h0 : k0 = k
      · simp [getProp, h0] at h
        simp [h0, h]
      · simp [getProp, h0] at h
        exact List.mem_cons_of_mem _ (ih h)

theorem getProp_isSome_of_mem {α : Type} (o : List (String × α)) (k : String) (v : α)
    (h : (k, v) ∈ o) : (getProp o k).isSome = true := by
  induction o with
  | nil => simp at h
  | cons p rest ih =>
      obtain ⟨k0, v0⟩ := p
      by_cases h0 : k0 = k
      · simp [getProp, h0]
      · have : (k, v) ∈ rest := by
          rcases List.mem_cons.1 h with h1 | h1
          · exact absurd (congrArg Prod.fst h1).symm h0
          · exact h1
        simp [getProp, h0, ih this]

theorem getMember_setProp (sm : List (String × Member)) (k k' : String) (v : Member) :
    getMember (setProp sm k v) k' = if k = k' then v else getMember sm k' := by
  unfold getMember
  rw [getProp_setProp]
  split <;> rfl

/-! ## Construction -/

theorem registerStates_currentState (states : States) (b : Build)
    (h : b.currentState.truthy = true) :
    (registerStates b states).currentState = b.currentState := by
  induction states generalizing b with
  | nil => rfl
  | cons entry rest ih =>
      have h1 : (registerState b entry).currentState = b.currentState := by
        simp [registerState, h]
      rw [registerStates, ih _ (by rw [h1]; exact h), h1]

theorem registerStates_first (stateName : String) (o : StateObj) (rest : States) :
    (registerStates Build.init ((stateName, o) :: rest)).currentState
      = .state stateName := by
  rw [registerStates, registerStates_currentState]
  · simp [registerState, Build.init, Val.truthy, Prim.truthy]
  · simp [registerState, Build.init, Val.truthy, Prim.truthy]

theorem Stately_cons (stateName : String) (o : StateObj) (rest : States)
    (options : Options) :
    Stately ((stateName, o) :: rest) options = .normal
      { stateOptions := handleOptions options,
        statesStore := (registerStates Build.init ((stateName, o) :: rest)).statesStore,
        stateMachine := (registerStates Build.init ((stateName, o) :: rest)).stateMachine,
        currentState := .state stateName,
        trace := [.onTransition (handleOptions options).onTransition .undefined .undefined
          (.str stateName)] } := by
  simp [Stately, registerStates_first, readName, Val.name]

/-! ## The facade that the constructor builds -/

theorem getMember_registerEvents (stateName e : String) (props : StateObj)
    (sm : List (String × Member)) :
    getMember (registerEvents stateName props sm) e
      = decorate stateName e props (getMember sm e) := by
  induction props generalizing sm with
  | nil => rfl
  | cons p rest ih =>
      obtain ⟨e', v⟩ := p
      by_cases hf : v.isFunction = true
      · by_cases he : e' = e
        · subst he
          simp [registerEvents, decorate, hf, ih, getMember_setProp]
        · simp [registerEvents, decorate, hf, he, ih, getMember_setProp]
      · simp [registerEvents, decorate, hf, ih]

theorem getMember_registerStates (e : String) (states : States) (b : Build) :
    getMember (registerStates b states).stateMachine e
      = chainOf e states (getMember b.stateMachine e) := by
  induction states generalizing b with
  | nil => rfl
  | cons entry rest ih =>
      obtain ⟨k, o⟩ := entry
      rw [registerStates, ih, chainOf]
      simp [registerState, getMember_registerEvents]

theorem getMember_init (e : String) :
    getMember Build.init.stateMachine e = initialMember e := by
  by_cases h : e = "getMachineState"
  · subst h
    simp [getMember, Build.init, getProp, initialMember]
  · have h1 : ¬ "getMachineState" = e := fun h2 => h h2.symm
    simp [getMember, Build.init, getProp, initialMember, h, h1]

theorem decorate_forEvent (k e : String) (o : StateObj) (mem : Member)
    (h : mem.ForEvent e) : (decorate k e o mem).ForEvent e := by
  induction o generalizing mem with
  | nil => exact h
  | cons p rest ih =>
      obtain ⟨e', v⟩ := p
      by_cases hc : v.isFunction = true ∧ e' = e
      · rw [decorate, if_pos hc]
        exact ih _ ⟨rfl, h⟩
      · rw [decorate, if_neg hc]
        exact ih _ h

theorem chainOf_forEvent (e : String) (states : States) (mem : Member)
    (h : mem.ForEvent e) : (chainOf e states mem).ForEvent e := by
  induction states generalizing mem with
  | nil => exact h
  | cons entry rest ih =>
      obtain ⟨k, o⟩ := entry
      exact ih _ (decorate_forEvent k e o mem h)

theorem decorate_root (k e : String) (o : StateObj) (mem : Member) :
    (decorate k e o mem).root = mem.root := by
  induction o generalizing mem with
  | nil => rfl
  | cons p rest ih =>
      obtain ⟨e', v⟩ := p
      by_cases hc : v.isFunction = true ∧ e' = e
      · rw [decorate, if_pos hc, ih]
        rfl
      · rw [decorate, if_neg hc, ih]

theorem chainOf_root (e : String) (states : States) (mem : Member) :
    (chainOf e states mem).root = mem.root := by
  induction states generalizing mem with
  | nil => rfl
  | cons entry rest ih =>
      obtain ⟨k, o⟩ := entry
      rw [chainOf, ih, decorate_root]

theorem decorate_owners (k e x : String) (o : StateObj) (mem : Member) :
    x ∈ (decorate k e o mem).owners ↔
      x ∈ mem.owners ∨ (x = k ∧ ∃ v, (e, v) ∈ o ∧ v.isFunction = true) := by
  induction o generalizing mem with
  | nil => simp [decorate]
  | cons p rest ih =>
      obtain ⟨e', v⟩ := p
      by_cases hc : v.isFunction = true ∧ e' = e
      · rw [decorate, if_pos hc, ih]
        obtain ⟨hf, he⟩ := hc
        subst he
        simp only [Member.owners, List.mem_cons]
        constructor
        · rintro ((h | h) | ⟨h, w, hw, hwf⟩)
          · exact Or.inr ⟨h, v, Or.inl rfl, hf⟩
          · exact Or.inl h
          · exact Or.inr ⟨h, w, Or.inr hw, hwf⟩
        · rintro (h | ⟨h, w, _, _⟩)
          · exact Or.inl (Or.inr h)
          · exact Or.inl (Or.inl h)
      · rw [decorate, if_neg hc, ih]
        simp only [List.mem_cons]
        constructor
        · rintro (h | ⟨h, w, hw, hwf⟩)
          · exact Or.inl h
          · exact Or.inr ⟨h, w, Or.inr hw, hwf⟩
        · rintro (h | ⟨h, w, hw, hwf⟩)
          · exact Or.inl h
          · rcases hw with hw | hw
            · have h1 : e = e' := congrArg Prod.fst hw
              have h2 : w = v := congrArg Prod.snd hw
              exact absurd ⟨h2 ▸ hwf, h1.symm⟩ hc
            · exact Or.inr ⟨h, w, hw, hwf⟩

theorem chainOf_owners (e x : String) (states : States) (mem : Member) :
    x ∈ (chainOf e states mem).owners ↔ x ∈ mem.owners ∨ Defines states x e := by
  induction states generalizing mem with
  | nil => simp [chainOf, Defines]
  | cons entry rest ih =>
      obtain ⟨k, o⟩ := entry
      rw [chainOf, ih, decorate_owners]
      unfold Defines
      constructor
      · rintro ((h | ⟨h, v, hv, hf⟩) | ⟨o', v, ho, hv, hf⟩)
        · exact Or.inl h
        · exact Or.inr ⟨o, v, by simp [h], hv, hf⟩
        · exact Or.inr ⟨o', v, List.mem_cons_of_mem _ ho, hv, hf⟩
      · rintro (h | ⟨o', v, ho, hv, hf⟩)
        · exact Or.inl (Or.inl h)
        · rcases List.mem_cons.1 ho with ho | ho
          · have h1 : x = k := congrArg Prod.fst ho
            have h2 : o' = o := congrArg Prod.snd ho
            exact Or.inl (Or.inr ⟨h1, v, h2 ▸ hv, hf⟩)
          · exact Or.inr ⟨o', v, ho, hv, hf⟩

/-! ## Calling a chain -/

theorem runEvent_result (m : Machine) (s e : String) (args : List Val) :
    (runEvent m s e args).1 = .normal .stateMachine ∨
      ∃ err, (runEvent m s e args).1 = .throw err := by
  unfold runEvent
  split
  · dsimp only
    split_ifs <;> simp
  · simp

theorem notHandled_true (m : Machine) (e : String) :
    notHandled m e true = (.normal .stateMachine, m) := by
  simp [notHandled]

theorem call_transition_current (m : Machine) (k e : String) (next : Member)
    (args : List Val) (hc : m.currentState = .state k) :
    (Member.transition k e next).call m args = runEvent m k e args := by
  cases next <;> simp [Member.call, hc]

theorem call_transition_other (m : Machine) (k e k2 e2 : String) (n2 : Member)
    (args : List Val) (hne : Val.state k ≠ m.currentState) :
    (Member.transition k e (.transition k2 e2 n2)).call m args =
      match (Member.transition k2 e2 n2).call m args with
      | (.normal r, m1) => notHandled m1 e r.truthy
      | (.throw err, m1) => (.throw err, m1) := by
  rw [Member.call, if_pos hne]
  intro h
  cases h

theorem call_owned (m : Machine) (e s : String) (args : List Val) (mem : Member)
    (hf : mem.ForEvent e) (hs : s ∈ mem.owners) (hc : m.currentState = .state s) :
    mem.call m args = runEvent m s e args := by
  induction mem with
  | absent => simp [Member.owners] at hs
  | getMachineState => simp [Member.owners] at hs
  | transition k e' next ih =>
      obtain ⟨he, hn⟩ := hf
      subst he
      by_cases hk : k = s
      · subst hk
        exact call_transition_current m k e' next args hc
      · have hs1 : s ∈ next.owners := by
          simp only [Member.owners, List.mem_cons] at hs
          rcases hs with h | h
          · exact absurd h.symm hk
          · exact h
        have hne : Val.state k ≠ m.currentState := by
          rw [hc]
          intro h
          exact hk (Val.state.inj h)
        have ih1 := ih hn hs1
        cases next with
        | absent => simp [Member.owners] at hs1
        | getMachineState => simp [Member.owners] at hs1
        | transition k2 e2 n2 =>
            rw [call_transition_other m k e' k2 e2 n2 args hne, ih1]
            rcases runEvent_result m s e' args with h | ⟨err, h⟩
            · rcases hr : runEvent m s e' args with ⟨r, m1⟩
              rw [hr] at h
              simp only [] at h
              subst h
              simp [Ret.truthy, notHandled_true]
            · rcases hr : runEvent m s e' args with ⟨r, m1⟩
              rw [hr] at h
              simp only [] at h
              subst h
              rfl

theorem notHandled_absorb (m : Machine) (e : String) (b : Bool) :
    (match notHandled m e b with
      | (.normal r, m1) => notHandled m1 e r.truthy
      | (.throw err, m1) => (.throw err, m1)) = notHandled m e b := by
  unfold notHandled
  by_cases h : (!b && m.stateOptions.invalidEventErrors) = true
  · rw [if_pos h]
    cases readName m.currentState <;> rfl
  · rw [if_neg h]
    simp [Ret.truthy]

theorem unhandled_absorb (m : Machine) (e : String) (root : Member) :
    (match unhandled m e root with
      | (.normal r, m1) => notHandled m1 e r.truthy
      | (.throw err, m1) => (.throw err, m1)) = unhandled m e root := by
  cases root with
  | absent => exact notHandled_absorb m e false
  | transition k e2 n => exact notHandled_absorb m e false
  | getMachineState =>
      unfold unhandled
      cases readName m.currentState with
      | normal name => exact notHandled_absorb m e name.truthy
      | throw err => rfl

theorem call_unowned (m : Machine) (e : String) (args : List Val) (k e' : String)
    (next : Member) (hf : (Member.transition k e' next).ForEvent e)
    (hno : ∀ x ∈ (Member.transition k e' next).owners, Val.state x ≠ m.currentState) :
    (Member.transition k e' next).call m args
      = unhandled m e (Member.transition k e' next).root := by
  induction next generalizing k e' with
  | absent =>
      obtain ⟨he, -⟩ := hf
      subst he
      have hne := hno k (by simp [Member.owners])
      simp [Member.call, hne, Member.root, unhandled]
  | getMachineState =>
      obtain ⟨he, -⟩ := hf
      subst he
      have hne := hno k (by simp [Member.owners])
      simp only [Member.call, if_pos hne, Member.root, unhandled]
      cases readName m.currentState <;> simp [Ret.truthy]
  | transition k2 e2 n2 ih =>
      obtain ⟨he, hn⟩ := hf
      subst he
      have hne := hno k (by simp [Member.owners])
      have ih1 := ih k2 e2 hn (fun x hx => hno x (by
        simp only [Member.owners, List.mem_cons] at hx ⊢
        exact Or.inr hx))
      rw [call_transition_other m k e' k2 e2 n2 args hne, ih1]
      exact unhandled_absorb m e' _

/-! ## The registry that the constructor builds -/

theorem store_keys (states : States) (b : Build) (k : String) :
    (getProp (registerStates b states).statesStore k).isSome = true ↔
      (getProp b.statesStore k).isSome = true ∨ k ∈ states.map Prod.fst := by
  induction states generalizing b with
  | nil => simp [registerStates]
  | cons entry rest ih =>
      obtain ⟨k0, o⟩ := entry
      rw [registerStates, ih]
      simp only [registerState, getProp_setProp, List.map_cons, List.mem_cons]
      by_cases h : k0 = k
      · simp [h]
      · have h1 : ¬ k = k0 := fun h2 => h h2.symm
        simp [h, h1]

theorem store_lookup (states : States) (b : Build) (k : String) (o' : StateObj)
    (h : getProp (registerStates b states).statesStore k = some o') :
    getProp b.statesStore k = some o' ∨
      ∃ o, (k, o) ∈ states ∧ o' = setProp o "name" (.data (.prim (.str k))) := by
  induction states generalizing b with
  | nil => exact Or.inl h
  | cons entry rest ih =>
      obtain ⟨k0, o⟩ := entry
      rw [registerStates] at h
      rcases ih _ h with h1 | ⟨o1, ho1, h1⟩
      · simp only [registerState, getProp_setProp] at h1
        by_cases hk : k0 = k
        · rw [if_pos hk] at h1
          subst hk
          exact Or.inr ⟨o, by simp, (Option.some.inj h1).symm⟩
        · rw [if_neg hk] at h1
          exact Or.inl h1
      · exact Or.inr ⟨o1, List.mem_cons_of_mem _ ho1, h1⟩

theorem Built.keys {states : States} {options : Options} {m : Machine}
    (hb : Built states options m) (k : String) :
    (getProp m.statesStore k).isSome = true ↔ k ∈ states.map Prod.fst := by
  rw [hb.2.1, store_keys]
  simp [Build.init, getProp]

theorem Built.member {states : States} {options : Options} {m : Machine}
    (hb : Built states options m) (e : String) :
    getMember m.stateMachine e = chainOf e states (initialMember e) := by
  rw [hb.2.2.1, getMember_registerStates, getMember_init]

theorem Built.handler_defines {states : States} {options : Options} {m : Machine}
    (hb : Built states options m) {s e : String} {h : Handler}
    (hh : m.handler s e = some h) : Defines states s e := by
  unfold Machine.handler at hh
  cases hs : getProp m.statesStore s with
  | none => simp [hs] at hh
  | some o' =>
      rw [hb.2.1] at hs
      rcases store_lookup states Build.init s o' hs with h1 | ⟨o, ho, h1⟩
      · simp [Build.init, getProp] at h1
      · rw [hb.2.1, hs, h1] at hh
        simp only [Option.bind, getProp_setProp] at hh
        by_cases hn : "name" = e
        · simp [hn] at hh
        · rw [if_neg hn] at hh
          cases hg : getProp o e with
          | none => simp [hg] at hh
          | some v =>
              cases v with
              | data d => simp [hg] at hh
              | fn h' => exact ⟨o, .fn h', ho, getProp_mem o e _ hg, rfl⟩

theorem owners_transition (mem : Member) (x : String) (hx : x ∈ mem.owners) :
    ∃ k e n, mem = .transition k e n := by
  cases mem with
  | absent => simp [Member.owners] at hx
  | getMachineState => simp [Member.owners] at hx
  | transition k e n => exact ⟨k, e, n, rfl⟩

theorem initialMember_forEvent (e : String) : (initialMember e).ForEvent e := by
  unfold initialMember
  split <;> exact True.intro

theorem initialMember_root (e : String) : (initialMember e).root = initialMember e := by
  unfold initialMember
  split <;> rfl

theorem initialMember_owners (e : String) : (initialMember e).owners = [] := by
  unfold initialMember
  split <;> rfl

theorem Built.owners {states : States} {options : Options} {m : Machine}
    (hb : Built states options m) (e x : String) :
    x ∈ (getMember m.stateMachine e).owners ↔ Defines states x e := by
  rw [hb.member, chainOf_owners, initialMember_owners]
  simp

/-- Dispatch of an event that the current state defines runs lines 83-108 for
the current state. -/
theorem Built.dispatch_handled {states : States} {options : Options} {m : Machine}
    (hb : Built states options m) {s e : String} (args : List Val)
    (hc : m.currentState = .state s) (hd : Defines states s e) :
    m.dispatch e args = runEvent m s e args := by
  unfold Machine.dispatch
  apply call_owned m e s args _ _ _ hc
  · rw [hb.member]
    exact chainOf_forEvent e states _ (initialMember_forEvent e)
  · exact (hb.owners e s).2 hd

/-- Dispatch of an event that some state defines and the current state does
not ends at the root of the chain. -/
theorem Built.dispatch_unhandled {states : States} {options : Options} {m : Machine}
    (hb : Built states options m) {e : String} (args : List Val)
    (hsome : ∃ k, Defines states k e)
    (hno : ∀ k, Defines states k e → Val.state k ≠ m.currentState) :
    m.dispatch e args = unhandled m e (initialMember e) := by
  obtain ⟨k0, hk0⟩ := hsome
  obtain ⟨k, e', n, hmem⟩ := owners_transition _ k0 ((hb.owners e k0).2 hk0)
  have hroot : (getMember m.stateMachine e).root = initialMember e := by
    rw [hb.member, chainOf_root, initialMember_root]
  have hfor : (getMember m.stateMachine e).ForEvent e := by
    rw [hb.member]
    exact chainOf_forEvent e states _ (initialMember_forEvent e)
  have hown : ∀ x ∈ (getMember m.stateMachine e).owners, Val.state x ≠ m.currentState :=
    fun x hx => hno x ((hb.owners e x).1 hx)
  unfold Machine.dispatch
  rw [hmem] at hroot hfor hown ⊢
  rw [call_unowned m e args k e' n hfor hown, hroot]

/-! ## Running the handler of the current state -/

theorem handler_lookup {m : Machine} {s e : String} {h : Handler}
    (hh : m.handler s e = some h) :
    (getProp m.statesStore s).bind (fun o => getProp o e) = some (.fn h) := by
  unfold Machine.handler at hh
  split at hh
  · rename_i h' heq
    rw [heq, Option.some.inj hh]
  · cases hh

theorem runEvent_invalid {m : Machine} {s e : String} {h : Handler} (args : List Val)
    (hh : m.handler s e = some h)
    (hv : invalidNextState m.statesStore (h.apply args) = true) :
    runEvent m s e args =
      (.throw (.InvalidStateError (invalidStateMessage h)),
        { m with trace := m.trace ++ [.handler s e args] }) := by
  unfold runEvent
  rw [handler_lookup hh]
  simp [hv]

theorem runEvent_valid {m : Machine} {s e : String} {h : Handler} (args : List Val)
    (hh : m.handler s e = some h)
    (hv : invalidNextState m.statesStore (h.apply args) = false) :
    runEvent m s e args =
      (.normal .stateMachine,
        { m with
          currentState := h.apply args,
          trace := m.trace ++ .handler s e args ::
            (if m.currentState ≠ h.apply args then
              [.onTransition m.stateOptions.onTransition (.str e)
                m.currentState.name (h.apply args).name]
            else []) }) := by
  unfold runEvent
  rw [handler_lookup hh]
  by_cases hne : m.currentState = h.apply args
  · simp [hv, hne]
  · simp [hv, hne]

theorem Built.valid_state {states : States} {options : Options} {m : Machine}
    (hb : Built states options m) {t : String} (hreg : t ∈ states.map Prod.fst)
    (hne : t ≠ "") : invalidNextState m.statesStore (.state t) = false := by
  have h1 := (hb.keys t).2 hreg
  simp [invalidNextState, storeHas, Val.truthy, Val.name, Prim.truthy, Prim.toStr, hne, h1]

/-- In a machine built from `states`, let the current state be `s` and let its
handler for `e` return, on `args`, the state registered under the non-empty
name `t`. Then dispatching `e` with `args` returns the facade, and the current
state is that state. -/
theorem transition_to_registered (states : States) (options : Options) (m : Machine)
    (s e t : String) (h : Handler) (args : List Val)
    (hb : Built states options m)
    (hc : m.currentState = .state s)
    (hh : m.handler s e = some h)
    (ht : h.apply args = .state t)
    (hreg : t ∈ states.map Prod.fst)
    (hne : t ≠ "") :
    (m.dispatch e args).1 = .normal .stateMachine ∧
      (m.dispatch e args).2.currentState = .state t := by
  have hv : invalidNextState m.statesStore (h.apply args) = false := by
    rw [ht]
    exact hb.valid_state hreg hne
  rw [hb.dispatch_handled args hc (hb.handler_defines hh), runEvent_valid args hh hv]
  exact ⟨rfl, ht⟩

/-- C2, failing input: the machine built from `emptyNamed` is in its first
state `a`, whose handler for `go` returns the state registered under the empty
name; dispatching `go` throws `InvalidStateError` and the machine stays in `a`. -/
theorem C2_failing_input :
    ∃ m, Stately emptyNamed .other = .normal m ∧
      m.currentState = .state "a" ∧
      m.handler "a" "go" = some (returning (.state "")) ∧
      (returning (.state "")).apply [] = .state "" ∧
      "" ∈ emptyNamed.map Prod.fst ∧
      (getProp m.statesStore "").isSome = true ∧
      (m.dispatch "go" []).1 = .throw (.InvalidStateError
        (invalidStateMessage (returning (.state "")))) ∧
      (m.dispatch "go" []).2.currentState = .state "a" :=
  ⟨_, rfl, rfl, rfl, rfl, by decide, rfl, by decide, rfl⟩

/-! ## Events that the current state does not define -/

theorem readName_object {v : Val} (h : v.isObject = true) : readName v = .normal v.name := by
  cases v with
  | prim p => simp [Val.isObject] at h
  | state k => rfl
  | object id n => rfl

theorem Built.dispatch_ignored {states : States} {options : Options} {m : Machine}
    (hb : Built states options m) {e : String} (args : List Val)
    (hoff : (handleOptions options).invalidEventErrors = false)
    (hsome : ∃ k, Defines states k e)
    (hno : ∀ k, Defines states k e → Val.state k ≠ m.currentState) :
    m.dispatch e args = (.normal .stateMachine, m) := by
  rw [hb.dispatch_unhandled args hsome hno]
  have ho : m.stateOptions.invalidEventErrors = false := by rw [hb.1, hoff]
  unfold initialMember
  split
  · simp [unhandled, readName_object hb.2.2.2, notHandled, ho]
  · simp [unhandled, notHandled, ho]

theorem Built.dispatch_refused {states : States} {options : Options} {m : Machine}
    (hb : Built states options m) {e : String} (args : List Val)
    (hon : (handleOptions options).invalidEventErrors = true)
    (hname : e ≠ "getMachineState")
    (hsome : ∃ k, Defines states k e)
    (hno : ∀ k, Defines states k e → Val.state k ≠ m.currentState) :
    m.dispatch e args =
      (.throw (.InvalidEventError (invalidEventMessage e m.currentState.name)), m) := by
  rw [hb.dispatch_unhandled args hsome hno]
  have ho : m.stateOptions.invalidEventErrors = true := by rw [hb.1, hon]
  simp [initialMember, hname, unhandled, notHandled, ho, readName_object hb.2.2.2]

theorem runEvent_not_invalidEvent (m : Machine) (s e : String) (args : List Val)
    (msg : String) : (runEvent m s e args).1 ≠ .throw (.InvalidEventError msg) := by
  unfold runEvent
  split
  · dsimp only
    split_ifs <;> simp
  · simp

/-- For an event name that some state defines and that the facade does not
hold before the loop (neither `getMachineState` nor an inherited name),
dispatch throws `InvalidEventError` exactly when `invalidEventErrors` is on and
the current state does not define the event. -/
theorem invalidEvent_iff (states : States) (options : Options) (m : Machine)
    (e : String) (args : List Val)
    (hb : Built states options m)
    (hname : e ≠ "getMachineState")
    (_hproto : e ∉ objectPrototype)
    (hsome : ∃ k, Defines states k e) :
    (∃ msg, (m.dispatch e args).1 = .throw (.InvalidEventError msg)) ↔
      ((handleOptions options).invalidEventErrors = true ∧
        ∀ s, m.currentState = .state s → ¬ Defines states s e) := by
  by_cases hcur : ∃ s, m.currentState = .state s ∧ Defines states s e
  · obtain ⟨s, hc, hd⟩ := hcur
    rw [hb.dispatch_handled args hc hd]
    constructor
    · rintro ⟨msg, h⟩
      exact absurd h (runEvent_not_invalidEvent m s e args msg)
    · rintro ⟨-, h⟩
      exact absurd hd (h s hc)
  · have hno : ∀ k, Defines states k e → Val.state k ≠ m.currentState :=
      fun k hk heq => hcur ⟨k, heq.symm, hk⟩
    cases hon : (handleOptions options).invalidEventErrors with
    | true =>
        rw [hb.dispatch_refused args hon hname hsome hno]
        constructor
        · intro _
          exact ⟨rfl, fun s hs hd => hcur ⟨s, hs, hd⟩⟩
        · intro _
          exact ⟨_, rfl⟩
    | false =>
        rw [hb.dispatch_ignored args hon hsome hno]
        simp

/-- C3, failing input: `shadowing` built with `invalidEventErrors` on is in
state `a`, which does not define the event `getMachineState` that state `b`
defines; dispatching it returns the facade and throws nothing. -/
theorem C3_failing_input :
    ∃ m, Stately shadowing withErrors = .normal m ∧
      m.stateOptions.invalidEventErrors = true ∧
      m.currentState = .state "a" ∧
      m.handler "a" "getMachineState" = none ∧
      (m.handler "b" "getMachineState").isSome = true ∧
      m.dispatch "getMachineState" [] = (.normal .stateMachine, m) :=
  ⟨_, rfl, rfl, rfl, rfl, rfl, rfl⟩

/-- C4, failing input: the turnstile whose `unlocked` state also defines an
event `getMachineState`, built with `invalidEventErrors` on and still `locked`:
dispatching `getMachineState` returns the facade instead of throwing. -/
theorem C4_failing_input :
    ∃ m, Stately shadowedTurnstile withErrors = .normal m ∧
      m.stateOptions.invalidEventErrors = true ∧
      getMachineState m = .normal (.str "locked") ∧
      m.handler "locked" "getMachineState" = none ∧
      (m.handler "unlocked" "getMachineState").isSome = true ∧
      (m.dispatch "getMachineState" []).1 = .normal .stateMachine :=
  ⟨_, rfl, rfl, rfl, rfl, rfl, rfl⟩

/-- With `invalidEventErrors` on, an event that the facade does not hold before
the loop (neither `getMachineState` nor an inherited name), that some state
defines and the current state does not: dispatch throws
`InvalidEventError` with the message of line 75, which holds the event name and
the name of the current state, and the machine is as before (no handler ran, no
`onTransition`, same current state). -/
theorem invalidEvent_refused (states : States) (options : Options) (m : Machine)
    (e : String) (args : List Val)
    (hb : Built states options m)
    (hon : (handleOptions options).invalidEventErrors = true)
    (hname : e ≠ "getMachineState")
    (_hproto : e ∉ objectPrototype)
    (hsome : ∃ k, Defines states k e)
    (hnot : ∀ s, m.currentState = .state s → ¬ Defines states s e) :
    m.dispatch e args =
      (.throw (.InvalidEventError
        ("Stately.js: Invalid event: `" ++ e ++ "` for current state: `" ++
          m.currentState.name.toStr ++ "`.")), m) :=
  hb.dispatch_refused args hon hname hsome (fun k hk heq => hnot k heq.symm hk)

/-- C5: with `invalidEventErrors` off, dispatching with any arguments an event
that some state defines and the current state does not returns the facade and
leaves the machine as it was: the trace is the same (no handler ran and
`onTransition` was not called) and so is the current state. -/
theorem C5_unhandled_ignored (states : States) (options : Options) (m : Machine)
    (e : String) (args : List Val)
    (hb : Built states options m)
    (hoff : (handleOptions options).invalidEventErrors = false)
    (hsome : ∃ k, Defines states k e)
    (hnot : ∀ s, m.currentState = .state s → ¬ Defines states s e) :
    (m.dispatch e args).1 = .normal .stateMachine ∧
      (m.dispatch e args).2.trace = m.trace ∧
      (m.dispatch e args).2.currentState = m.currentState ∧
      getMachineState (m.dispatch e args).2 = getMachineState m := by
  rw [hb.dispatch_ignored args hoff hsome (fun k hk heq => hnot k heq.symm hk)]
  exact ⟨rfl, rfl, rfl, rfl⟩

/-- C5, witness: the turnstile in `locked`, built without options, ignores `push`. -/
theorem C5_unhandled_ignored_witness :
    ((machineAt turnstile .other (.state "locked")).dispatch "push"
        [.prim (.str "hard")]).1 = .normal .stateMachine ∧
      ((machineAt turnstile .other (.state "locked")).dispatch "push"
        [.prim (.str "hard")]).2.trace = [] ∧
      ((machineAt turnstile .other (.state "locked")).dispatch "push"
        [.prim (.str "hard")]).2.currentState = .state "locked" ∧
      getMachineState ((machineAt turnstile .other (.state "locked")).dispatch "push"
        [.prim (.str "hard")]).2 = .normal (.str "locked") :=
  C5_unhandled_ignored turnstile .other (machineAt turnstile .other (.state "locked"))
    "push" [.prim (.str "hard")] ⟨rfl, rfl, rfl, rfl⟩ rfl
    ⟨"unlocked", _, _, List.mem_cons_of_mem _ (List.mem_cons_self _ _),
      List.mem_cons_self _ _, rfl⟩
    (by
      intro s hs
      cases hs
      simp [Defines, turnstile])

/-! ## Results that are no state of the machine -/

theorem Built.invalid_of {states : States} {options : Options} {m : Machine}
    (hb : Built states options m) {v : Val}
    (hv : ¬ (v.isObject = true ∧ v.name.truthy = true ∧
      (v.name.toStr ∈ states.map Prod.fst ∨ v.name.toStr ∈ objectPrototype))) :
    invalidNextState m.statesStore v = true := by
  by_cases h1 : v.truthy = true
  · by_cases h2 : v.name.truthy = true
    · have h3 : v.isObject = true := by
        cases v with
        | prim p => simp [Val.name, Prim.truthy] at h2
        | state k => rfl
        | object id n => rfl
      have h4 : ¬ (getProp m.statesStore v.name.toStr).isSome = true :=
        fun h => hv ⟨h3, h2, Or.inl ((hb.keys _).1 h)⟩
      have h5 : ¬ v.name.toStr ∈ objectPrototype := fun h => hv ⟨h3, h2, Or.inr h⟩
      have h6 : objectPrototype.contains v.name.toStr = false := by
        simpa using h5
      have h7 : (getProp m.statesStore v.name.toStr).isSome = false := by
        simpa using h4
      simp only [invalidNextState, storeHas, h6, h7]
      simp
    · simp [invalidNextState, h2]
  · simp [invalidNextState, h1]

theorem Built.dispatch_invalid {states : States} {options : Options} {m : Machine}
    (hb : Built states options m) {s e : String} {h : Handler} (args : List Val)
    (hc : m.currentState = .state s) (hh : m.handler s e = some h)
    (hv : ¬ ((h.apply args).isObject = true ∧ (h.apply args).name.truthy = true ∧
      ((h.apply args).name.toStr ∈ states.map Prod.fst ∨
        (h.apply args).name.toStr ∈ objectPrototype))) :
    m.dispatch e args =
      (.throw (.InvalidStateError (invalidStateMessage h)),
        { m with trace := m.trace ++ [.handler s e args] }) := by
  rw [hb.dispatch_handled args hc (hb.handler_defines hh),
    runEvent_invalid args hh (hb.invalid_of hv)]

/-- Let the handler of the current state `s` for `e` return a falsy value, an
object without a name, or an object whose name is neither a key of the registry
nor a name that the registry inherits. Then dispatching `e` throws
`InvalidStateError`, the trace gains the handler invocation only, and the
current state is as before. -/
theorem invalid_result_rejected (states : States) (options : Options) (m : Machine)
    (s e : String) (h : Handler) (args : List Val)
    (hb : Built states options m)
    (hc : m.currentState = .state s)
    (hh : m.handler s e = some h)
    (hv : (h.apply args).truthy = false ∨
      ((h.apply args).isObject = true ∧ (h.apply args).name = .undefined) ∨
      ((h.apply args).isObject = true ∧
        (h.apply args).name.toStr ∉ states.map Prod.fst ∧
        (h.apply args).name.toStr ∉ objectPrototype)) :
    (∃ msg, (m.dispatch e args).1 = .throw (.InvalidStateError msg)) ∧
      (m.dispatch e args).2.trace = m.trace ++ [.handler s e args] ∧
      (m.dispatch e args).2.currentState = m.currentState := by
  have hv1 : ¬ ((h.apply args).isObject = true ∧ (h.apply args).name.truthy = true ∧
      ((h.apply args).name.toStr ∈ states.map Prod.fst ∨
        (h.apply args).name.toStr ∈ objectPrototype)) := by
    rintro ⟨h1, h2, h3⟩
    rcases hv with hv | ⟨-, hv⟩ | ⟨-, hv⟩
    · cases hr : h.apply args with
      | prim p => simp [hr, Val.isObject] at h1
      | state k => simp [hr, Val.truthy] at hv
      | object id n => simp [hr, Val.truthy] at hv
    · simp [hv, Prim.truthy] at h2
    · rcases h3 with h3 | h3
      · exact hv.1 h3
      · exact hv.2 h3
  rw [hb.dispatch_invalid args hc hh hv1]
  exact ⟨⟨_, rfl⟩, rfl, rfl⟩

/-- C6, failing input: in the machine built from `inheritedName`, the handler of
the current state `a` for `go` returns an object named `toString`, which is not
a key of the registry. Line 89 finds `statesStore["toString"]` in
`Object.prototype`: nothing is thrown, `onTransition` is called, and the object
becomes the current state. -/
theorem C6_failing_input :
    ∃ m, Stately inheritedName (.function (.user 0)) = .normal m ∧
      m.currentState = .state "a" ∧
      m.handler "a" "go" = some (returning (.object 7 (.str "toString"))) ∧
      (returning (.object 7 (.str "toString"))).apply [] = .object 7 (.str "toString") ∧
      "toString" ∉ inheritedName.map Prod.fst ∧
      getProp m.statesStore "toString" = none ∧
      (m.dispatch "go" []).1 = .normal .stateMachine ∧
      (m.dispatch "go" []).2.trace = m.trace ++
        [.handler "a" "go" [],
         .onTransition (.user 0) (.str "go") (.str "a") (.str "toString")] ∧
      (m.dispatch "go" []).2.currentState = .object 7 (.str "toString") :=
  ⟨_, rfl, rfl, rfl, rfl, by decide, rfl, rfl, rfl, rfl⟩

/-- C7, failing input: the machine built from `foreigner` is in state `a`, whose
handler for `go` returns an object that is not a state of the machine and
carries the name `b`; dispatching `go` throws nothing, and that object becomes
the current state in place of `a`. -/
theorem C7_failing_input :
    ∃ m, Stately foreigner .other = .normal m ∧
      m.currentState = .state "a" ∧
      m.handler "a" "go" = some (returning (.object 7 (.str "b"))) ∧
      (returning (.object 7 (.str "b"))).apply [] = .object 7 (.str "b") ∧
      (∀ k, Val.object 7 (.str "b") ≠ .state k) ∧
      (m.dispatch "go" []).1 = .normal .stateMachine ∧
      (m.dispatch "go" []).2.currentState = .object 7 (.str "b") ∧
      (m.dispatch "go" []).2.currentState.name = .str "b" :=
  ⟨_, rfl, rfl, rfl, rfl, fun _ h => Val.noConfusion h, rfl, rfl, rfl⟩

/-! ## Transitions and their notification -/

/-- C9: let the handler of the current state `s` for `e` return the state
registered under the non-empty name `t`. Then the dispatch adds to the trace the
handler invocation and, exactly when `t` is another state than `s`, one call
`onTransition (e, s, t)` after it; for `t = s` it adds the handler invocation
alone. -/
theorem C9_notification (states : States) (options : Options) (m : Machine)
    (s e t : String) (h : Handler) (args : List Val)
    (hb : Built states options m)
    (hc : m.currentState = .state s)
    (hh : m.handler s e = some h)
    (ht : h.apply args = .state t)
    (hreg : t ∈ states.map Prod.fst)
    (hne : t ≠ "") :
    (m.dispatch e args).2.trace =
      m.trace ++ .handler s e args ::
        (if t ≠ s then
          [.onTransition (handleOptions options).onTransition (.str e) (.str s) (.str t)]
        else []) := by
  have hv : invalidNextState m.statesStore (h.apply args) = false := by
    rw [ht]
    exact hb.valid_state hreg hne
  rw [hb.dispatch_handled args hc (hb.handler_defines hh), runEvent_valid args hh hv]
  by_cases hts : t = s
  · simp [ht, hc, hts]
  · have hst : ¬ s = t := fun h => hts h.symm
    simp [ht, hc, hts, hst, hb.1, Val.name]

/-- C9, witness: `next` in state `b` of `ring` moves to `c` and notifies. -/
theorem C9_notification_witness :
    ((machineAt ring (.function (.user 1)) (.state "b")).dispatch "next" []).2.trace =
      [] ++ .handler "b" "next" [] ::
        (if "c" ≠ "b" then
          [.onTransition (handleOptions (.function (.user 1))).onTransition
            (.str "next") (.str "b") (.str "c")]
        else []) :=
  C9_notification ring (.function (.user 1)) (machineAt ring (.function (.user 1)) (.state "b"))
    "b" "next" "c" (returning (.state "c")) [] ⟨rfl, rfl, rfl, rfl⟩ rfl rfl rfl
    (by decide) (by decide)

/-- When line 83 finds a handler of the current state `s` for `e`, whatever
other states define `e` and wherever `s` stands among them, dispatching `e`
with `args` adds to the trace the invocation of the handler of `s` for `e` with
`args`, and no other handler invocation. -/
theorem own_handler_wins (states : States) (options : Options) (m : Machine)
    (s e : String) (h : Handler) (args : List Val)
    (hb : Built states options m)
    (hc : m.currentState = .state s)
    (hh : m.handler s e = some h) :
    ∃ rest, (m.dispatch e args).2.trace = m.trace ++ .handler s e args :: rest ∧
      ∀ x ∈ rest, x.isHandler = false := by
  rw [hb.dispatch_handled args hc (hb.handler_defines hh)]
  cases hv : invalidNextState m.statesStore (h.apply args) with
  | true =>
      rw [runEvent_invalid args hh hv]
      exact ⟨[], rfl, by simp⟩
  | false =>
      rw [runEvent_valid args hh hv]
      refine ⟨_, rfl, ?_⟩
      intro x hx
      split_ifs at hx
      · simp only [List.mem_singleton] at hx
        subst hx
        rfl
      · simp at hx

/-- C10, failing input: both states of `namedPair` define an event called
`name`. In the first state `a` the call `facade.name ("x")` reaches the
decorator of `a`, but line 156 has put the string `a` where the handler was:
line 83 throws a `TypeError` and no handler is invoked. -/
theorem C10_failing_input :
    ∃ m, Stately namedPair .other = .normal m ∧
      m.currentState = .state "a" ∧
      getProp namedPair "a" = some [("name", .fn (returning (.state "b")))] ∧
      getProp namedPair "b" = some [("name", .fn (returning (.state "a")))] ∧
      getMember m.stateMachine "name"
        = .transition "b" "name" (.transition "a" "name" .absent) ∧
      m.handler "a" "name" = none ∧
      (m.dispatch "name" [.prim (.str "x")]).1 = .throw .TypeError ∧
      (m.dispatch "name" [.prim (.str "x")]).2.trace = m.trace :=
  ⟨_, rfl, rfl, rfl, rfl, rfl, rfl, rfl, rfl⟩

/-! ## The current state over a run -/

theorem notHandled_snd (m : Machine) (e : String) (b : Bool) : (notHandled m e b).2 = m := by
  unfold notHandled
  split_ifs
  · cases readName m.currentState <;> rfl
  · rfl

theorem call_state (m : Machine) (mem : Member) (args : List Val) :
    (mem.call m args).2 = m ∨ ∃ s e, (mem.call m args).2 = (runEvent m s e args).2 := by
  induction mem with
  | absent => exact Or.inl rfl
  | getMachineState =>
      left
      simp only [Member.call]
      cases readName m.currentState <;> rfl
  | transition k e next ih =>
      by_cases hc : Val.state k ≠ m.currentState
      · cases next with
        | absent =>
            left
            simp [Member.call, hc, notHandled_snd]
        | getMachineState =>
            left
            simp only [Member.call, if_pos hc]
            cases readName m.currentState <;> simp [notHandled_snd]
        | transition k2 e2 n2 =>
            rw [call_transition_other m k e k2 e2 n2 args hc]
            rcases hr : (Member.transition k2 e2 n2).call m args with ⟨r, m1⟩
            rw [hr] at ih
            cases r with
            | normal v => simpa [notHandled_snd] using ih
            | throw err => simpa using ih
      · right
        have hc1 : m.currentState = .state k := by
          by_contra h
          exact hc (fun h2 => h h2.symm)
        exact ⟨k, e, by rw [call_transition_current m k e next args hc1]⟩

theorem runEvent_none {m : Machine} {s e : String} (args : List Val)
    (hh : m.handler s e = none) : runEvent m s e args = (.throw .TypeError, m) := by
  unfold Machine.handler at hh
  unfold runEvent
  split at hh
  · cases hh
  · rfl

theorem runEvent_state (m : Machine) (s e : String) (args : List Val) :
    (runEvent m s e args).2 = m ∨
      (∃ h, m.handler s e = some h ∧
        ∃ tr, (runEvent m s e args).2 = { m with trace := tr }) ∨
      (∃ h, m.handler s e = some h ∧
        invalidNextState m.statesStore (h.apply args) = false ∧
        ∃ tr, (runEvent m s e args).2 =
          { m with currentState := h.apply args, trace := tr }) := by
  cases hh : m.handler s e with
  | none => exact Or.inl (by rw [runEvent_none args hh])
  | some h =>
      cases hv : invalidNextState m.statesStore (h.apply args) with
      | true =>
          right; left
          exact ⟨h, rfl, _, by rw [runEvent_invalid args hh hv]⟩
      | false =>
          right; right
          exact ⟨h, rfl, hv, _, by rw [runEvent_valid args hh hv]⟩

theorem Built.handler_mem {states : States} {options : Options} {m : Machine}
    (hb : Built states options m) {s e : String} {h : Handler}
    (hh : m.handler s e = some h) : ∃ o, (s, o) ∈ states ∧ (e, PropVal.fn h) ∈ o := by
  have hl := handler_lookup hh
  cases hs : getProp m.statesStore s with
  | none => simp [hs] at hl
  | some o' =>
      rw [hs] at hl
      rw [hb.2.1] at hs
      rcases store_lookup states Build.init s o' hs with h1 | ⟨o, ho, h1⟩
      · simp [Build.init, getProp] at h1
      · rw [h1] at hl
        simp only [Option.bind, getProp_setProp] at hl
        by_cases hn : "name" = e
        · simp [hn] at hl
        · rw [if_neg hn] at hl
          exact ⟨o, ho, getProp_mem o e _ hl⟩

theorem valid_isObject {statesStore : List (String × StateObj)} {v : Val}
    (hv : invalidNextState statesStore v = false) : v.isObject = true := by
  simp only [invalidNextState, Bool.or_eq_false_iff, Bool.not_eq_false_eq_eq_true,
    Bool.not_eq_eq_eq_not, Bool.not_true] at hv
  obtain ⟨⟨-, h2⟩, -⟩ := hv
  cases v with
  | prim p => simp [Val.name, Prim.truthy] at h2
  | state k => rfl
  | object id n => rfl

/-- A dispatch on a built machine leaves a built machine. -/
theorem Built.dispatch_built {states : States} {options : Options} {m : Machine}
    (hb : Built states options m) (e : String) (args : List Val) :
    Built states options (m.dispatch e args).2 := by
  unfold Machine.dispatch
  rcases call_state m (getMember m.stateMachine e) args with h | ⟨s, e', h⟩
  · rw [h]
    exact hb
  · rw [h]
    rcases runEvent_state m s e' args with h1 | ⟨hd, -, tr, h1⟩ | ⟨hd, -, hv, tr, h1⟩
    · rw [h1]
      exact hb
    · rw [h1]
      exact hb
    · rw [h1]
      exact ⟨hb.1, hb.2.1, hb.2.2.1, valid_isObject hv⟩

theorem Built.run_built {states : States} {options : Options} {m : Machine}
    (hb : Built states options m) (events : List (String × List Val)) :
    Built states options (m.run events) := by
  induction events generalizing m with
  | nil => exact hb
  | cons ev rest ih =>
      obtain ⟨e, args⟩ := ev
      exact ih (hb.dispatch_built e args)

/-- Every machine that the constructor returns, and every machine that a run
of dispatches makes of it, is a built machine. -/
theorem Built.of_run (states : States) (options : Options) (m : Machine)
    (events : List (String × List Val)) (h : Stately states options = .normal m) :
    Built states options (m.run events) := by
  cases states with
  | nil => simp [Stately, registerStates, Build.init, readName] at h
  | cons entry rest =>
      obtain ⟨stateName, o⟩ := entry
      rw [Stately_cons] at h
      have hm := Completion.normal.inj h
      subst hm
      have hb : Built ((stateName, o) :: rest) options
          { stateOptions := handleOptions options,
            statesStore := (registerStates Build.init ((stateName, o) :: rest)).statesStore,
            stateMachine := (registerStates Build.init ((stateName, o) :: rest)).stateMachine,
            currentState := .state stateName,
            trace := [.onTransition (handleOptions options).onTransition .undefined
              .undefined (.str stateName)] } := ⟨rfl, rfl, rfl, rfl⟩
      exact hb.run_built events

/-- C8, failing input: the machine built from `foreigner`, after the one
dispatch `go`, has as current state an object that is none of the state objects
of the registry; it carries the name `b`, yet the dispatcher of `b` for `back`
does not take it for the current state: `back` runs no handler and changes
nothing. -/
theorem C8_failing_input :
    ∃ m, Stately foreigner .other = .normal m ∧
      (m.run [("go", [])]).currentState = .object 7 (.str "b") ∧
      (∀ k, (m.run [("go", [])]).currentState ≠ .state k) ∧
      (m.run [("go", [])]).handler "b" "back" = some (returning (.state "a")) ∧
      ((m.run [("go", [])]).dispatch "back" []).1 = .normal .stateMachine ∧
      ((m.run [("go", [])]).dispatch "back" []).2.trace = (m.run [("go", [])]).trace ∧
      ((m.run [("go", [])]).dispatch "back" []).2.currentState = .object 7 (.str "b") :=
  ⟨_, rfl, rfl, fun _ h => Val.noConfusion h, rfl, rfl, rfl, rfl⟩

/-- For a specification whose first state is `stateName`, and any options, the
constructor returns a machine whose current state is that first state and
whose trace is exactly one call of `onTransition`, with arguments
`(undefined, undefined, stateName)`. -/
theorem initial_state (stateName : String) (o : StateObj) (rest : States)
    (options : Options) :
    ∃ m, Stately ((stateName, o) :: rest) options = .normal m ∧
      m.currentState = .state stateName ∧
      m.trace = [.onTransition (handleOptions options).onTransition
        .undefined .undefined (.str stateName)] :=
  ⟨_, Stately_cons stateName o rest options, rfl, rfl⟩

/-- C1, failing input: in `shadowedTurnstile` the second state defines an event
called `getMachineState`. The constructor leaves the machine in the first
state `locked` and has called `onTransition (undefined, undefined, "locked")`
once, but the call `facade.getMachineState ()` right after it returns the
facade, not the name `locked`. -/
theorem C1_failing_input :
    ∃ m, Stately shadowedTurnstile (.function (.user 0)) = .normal m ∧
      m.currentState = .state "locked" ∧
      m.trace = [.onTransition (.user 0) .undefined .undefined (.str "locked")] ∧
      getMember m.stateMachine "getMachineState"
        = .transition "unlocked" "getMachineState" .getMachineState ∧
      (m.dispatch "getMachineState" []).1 = .normal .stateMachine :=
  ⟨_, rfl, rfl, rfl, rfl, rfl⟩

/-! ## The turnstile -/

/-- C12: the turnstile built with a callback starts `locked`; `coin ()` notifies
`("coin", "locked", "unlocked")` and the state is `unlocked`; `push ()` notifies
`("push", "unlocked", "locked")` and the state is `locked`; one more `push ()`
returns the facade with no effect at all; and in the machine built with
`invalidEventErrors` on, that last `push ()` throws `InvalidEventError` with a
message that names `push` and `locked`, and the state stays `locked`. -/
theorem C12_turnstile :
    (∃ m, Stately turnstile (.function (.user 0)) = .normal m ∧
      getMachineState m = .normal (.str "locked") ∧
      (m.dispatch "coin" []).1 = .normal .stateMachine ∧
      (m.dispatch "coin" []).2.trace = m.trace ++
        [.handler "locked" "coin" [],
         .onTransition (.user 0) (.str "coin") (.str "locked") (.str "unlocked")] ∧
      getMachineState (m.run [("coin", [])]) = .normal (.str "unlocked") ∧
      ((m.run [("coin", [])]).dispatch "push" []).1 = .normal .stateMachine ∧
      ((m.run [("coin", [])]).dispatch "push" []).2.trace = (m.run [("coin", [])]).trace ++
        [.handler "unlocked" "push" [],
         .onTransition (.user 0) (.str "push") (.str "unlocked") (.str "locked")] ∧
      getMachineState (m.run [("coin", []), ("push", [])]) = .normal (.str "locked") ∧
      ((m.run [("coin", []), ("push", [])]).dispatch "push" []).1 = .normal .stateMachine ∧
      ((m.run [("coin", []), ("push", [])]).dispatch "push" []).2.trace
        = (m.run [("coin", []), ("push", [])]).trace ∧
      getMachineState (m.run [("coin", []), ("push", []), ("push", [])])
        = .normal (.str "locked")) ∧
    (∃ m, Stately turnstile (.object (some (.user 0)) (some true)) = .normal m ∧
      getMachineState (m.run [("coin", []), ("push", [])]) = .normal (.str "locked") ∧
      ((m.run [("coin", []), ("push", [])]).dispatch "push" []).1 = .throw
        (.InvalidEventError "Stately.js: Invalid event: `push` for current state: `locked`.") ∧
      ((m.run [("coin", []), ("push", [])]).dispatch "push" []).2.trace
        = (m.run [("coin", []), ("push", [])]).trace ∧
      getMachineState (m.run [("coin", []), ("push", []), ("push", [])])
        = .normal (.str "locked")) :=
  ⟨⟨_, rfl, rfl, rfl, rfl, rfl, rfl, rfl, rfl, rfl, rfl, rfl⟩,
    ⟨_, rfl, rfl, by decide, rfl, rfl⟩⟩

/-! ## Chaining -/

theorem notHandled_result (m : Machine) (e : String) (b : Bool) (r : Ret)
    (h : (notHandled m e b).1 = .normal r) : r = .stateMachine := by
  unfold notHandled at h
  split_ifs at h
  · cases hn : readName m.currentState <;> simp [hn] at h
  · simp at h
    exact h.symm

theorem call_transition_result (m : Machine) (k e : String) (next : Member)
    (args : List Val) (r : Ret)
    (h : ((Member.transition k e next).call m args).1 = .normal r) : r = .stateMachine := by
  by_cases hc : Val.state k ≠ m.currentState
  · cases next with
    | absent =>
        simp only [Member.call, if_pos hc] at h
        exact notHandled_result m e false r h
    | getMachineState =>
        simp only [Member.call, if_pos hc] at h
        cases hn : readName m.currentState with
        | normal name =>
            simp only [hn] at h
            exact notHandled_result m e _ r h
        | throw err => simp [hn] at h
    | transition k2 e2 n2 =>
        rw [call_transition_other m k e k2 e2 n2 args hc] at h
        rcases hr : (Member.transition k2 e2 n2).call m args with ⟨r1, m1⟩
        rw [hr] at h
        cases r1 with
        | normal v => exact notHandled_result m1 e _ r h
        | throw err => simp at h
  · have hc1 : m.currentState = .state k := by
      by_contra h1
      exact hc (fun h2 => h1 h2.symm)
    rw [call_transition_current m k e next args hc1] at h
    rcases runEvent_result m k e args with h1 | ⟨err, h1⟩
    · rw [h1] at h
      exact (Completion.normal.inj h).symm
    · rw [h1] at h
      cases h

/-- A dispatch of an event that some state defines returns the facade, unless
it throws. -/
theorem Built.dispatch_result {states : States} {options : Options} {m : Machine}
    (hb : Built states options m) {e : String} (args : List Val)
    (hsome : ∃ k, Defines states k e) (r : Ret)
    (h : (m.dispatch e args).1 = .normal r) : r = .stateMachine := by
  obtain ⟨k0, hk0⟩ := hsome
  obtain ⟨k, e', n, hmem⟩ := owners_transition _ k0 ((hb.owners e k0).2 hk0)
  unfold Machine.dispatch at h
  rw [hmem] at h
  exact call_transition_result m k e' n args r h

/-- C11: a dispatch of an event `a` that does not throw returns the facade, and
so `facade.a (argsA).b (argsB)` and `facade.a (argsA); facade.b (argsB);` end in
the same completion (value or error) and the same machine: same handler
invocations and notifications in the trace, same current state. -/
theorem C11_chaining (states : States) (options : Options) (m : Machine)
    (a b : String) (argsA argsB : List Val)
    (hb : Built states options m)
    (ha : ∃ k, Defines states k a) :
    (∀ r, (m.dispatch a argsA).1 = .normal r → r = .stateMachine) ∧
      chained m a argsA b argsB = sequential m a argsA b argsB := by
  have hres := hb.dispatch_result argsA ha
  refine ⟨hres, ?_⟩
  unfold chained sequential
  rcases hd : m.dispatch a argsA with ⟨r, m1⟩
  rw [hd] at hres
  cases r with
  | throw err => rfl
  | normal v =>
      have hv := hres v rfl
      subst hv
      rfl

/-- C11, witness: `coin ().push ()` on the turnstile. -/
theorem C11_chaining_witness :
    (∀ r, ((machineAt turnstile .other (.state "locked")).dispatch "coin" []).1 = .normal r →
        r = .stateMachine) ∧
      chained (machineAt turnstile .other (.state "locked")) "coin" [] "push" []
        = sequential (machineAt turnstile .other (.state "locked")) "coin" [] "push" [] :=
  C11_chaining turnstile .other (machineAt turnstile .other (.state "locked"))
    "coin" "push" [] [] ⟨rfl, rfl, rfl, rfl⟩
    ⟨"locked", _, _, List.mem_cons_self _ _, List.mem_cons_self _ _, rfl⟩

/-! ## The message of an invalid state -/

theorem call_invalidState (m : Machine) (e : String) (args : List Val) (mem : Member)
    (msg : String) (hf : mem.ForEvent e)
    (h : (mem.call m args).1 = .throw (.InvalidStateError msg)) :
    ∃ s, m.currentState = .state s ∧
      (runEvent m s e args).1 = .throw (.InvalidStateError msg) := by
  induction mem with
  | absent => simp [Member.call] at h
  | getMachineState =>
      simp only [Member.call] at h
      cases hn : readName m.currentState with
      | normal name => simp [hn] at h
      | throw err =>
          cases hv : m.currentState with
          | prim p => cases p <;> simp [hv, readName, Val.name] at hn h
          | state k => simp [hv, readName] at hn
          | object id n => simp [hv, readName] at hn
  | transition k e' next ih =>
      obtain ⟨he, hn⟩ := hf
      subst he
      by_cases hc : Val.state k ≠ m.currentState
      · cases next with
        | absent =>
            simp only [Member.call, if_pos hc, notHandled] at h
            split_ifs at h
            cases hr : readName m.currentState with
            | normal name => simp [hr] at h
            | throw err =>
                cases hv : m.currentState with
                | prim p => cases p <;> simp [hv, readName, Val.name] at hr h
                | state k => simp [hv, readName] at hr
                | object id n => simp [hv, readName] at hr
        | getMachineState =>
            exfalso
            simp only [Member.call, if_pos hc] at h
            cases hr : readName m.currentState with
            | normal name =>
                simp only [hr, notHandled] at h
                split_ifs at h
                simp at h
            | throw err =>
                cases hv : m.currentState with
                | prim p => cases p <;> simp [hv, readName, Val.name] at hr h
                | state k => simp [hv, readName] at hr
                | object id n => simp [hv, readName] at hr
        | transition k2 e2 n2 =>
            rw [call_transition_other m k e' k2 e2 n2 args hc] at h
            rcases hr : (Member.transition k2 e2 n2).call m args with ⟨r1, m1⟩
            rw [hr] at h ih
            cases r1 with
            | normal v =>
                exfalso
                simp only [notHandled] at h
                split_ifs at h
                cases hq : readName m1.currentState with
                | normal name => simp [hq] at h
                | throw err =>
                    cases hv : m1.currentState with
                    | prim p => cases p <;> simp [hv, readName, Val.name] at hq h
                    | state k => simp [hv, readName] at hq
                    | object id n => simp [hv, readName] at hq
            | throw err => exact ih hn h
      · have hc1 : m.currentState = .state k := by
          by_contra h1
          exact hc (fun h2 => h1 h2.symm)
        rw [call_transition_current m k e' next args hc1] at h
        exact ⟨k, hc1, h⟩

theorem runEvent_invalidState {m : Machine} {s e : String} {args : List Val}
    {msg : String} (h : (runEvent m s e args).1 = .throw (.InvalidStateError msg)) :
    ∃ hd, m.handler s e = some hd ∧ msg = invalidStateMessage hd := by
  cases hh : m.handler s e with
  | none => simp [runEvent_none args hh] at h
  | some hd =>
      cases hv : invalidNextState m.statesStore (hd.apply args) with
      | true =>
          rw [runEvent_invalid args hh hv] at h
          simp only [Completion.throw.injEq, Error.InvalidStateError.injEq] at h
          exact ⟨hd, rfl, h.symm⟩
      | false => simp [runEvent_valid args hh hv] at h

/-- C13, amended: whenever a dispatch of `e` throws `InvalidStateError`, the
current state is a state `s` with a handler for `e`, and the message of the
error is the text of line 92 around the source of that handler; the value that
the handler returned is not in it. -/
theorem C13_message_shows_handler (states : States) (options : Options) (m : Machine)
    (e : String) (args : List Val) (msg : String)
    (hb : Built states options m)
    (hfail : (m.dispatch e args).1 = .throw (.InvalidStateError msg)) :
    ∃ s h, m.currentState = .state s ∧ m.handler s e = some h ∧
      msg = "Stately.js: Transitioned into invalid state: `" ++ h.source ++ "`." := by
  have hf : (getMember m.stateMachine e).ForEvent e := by
    rw [hb.member]
    exact chainOf_forEvent e states _ (initialMember_forEvent e)
  obtain ⟨s, hc, hr⟩ := call_invalidState m e args _ msg hf hfail
  obtain ⟨hd, hh, hmsg⟩ := runEvent_invalidState hr
  exact ⟨s, hd, hc, hh, hmsg⟩

/-- C13, witness: `lose` in state `a` of `foreigner`. -/
theorem C13_message_shows_handler_witness :
    ∃ s h, (machineAt foreigner .other (.state "a")).currentState = .state s ∧
      (machineAt foreigner .other (.state "a")).handler s "lose" = some h ∧
      invalidStateMessage (returning (.prim .undefined))
        = "Stately.js: Transitioned into invalid state: `" ++ h.source ++ "`." :=
  C13_message_shows_handler foreigner .other (machineAt foreigner .other (.state "a"))
    "lose" [] (invalidStateMessage (returning (.prim .undefined))) ⟨rfl, rfl, rfl, rfl⟩ rfl

/-- C13, counterexample: in `echoing` the handler of `a` for `to` returns its
argument. Called with `null` and called with an object named `nowhere`, it fails
validation on two different values, and both errors carry the same message: the
source text of the handler. -/
theorem C13_counterexample :
    ∃ m, Stately echoing .other = .normal m ∧
      m.handler "a" "to" = some echo ∧
      echo.apply [.prim .null] = .prim .null ∧
      echo.apply [.object 9 (.str "nowhere")] = .object 9 (.str "nowhere") ∧
      (m.dispatch "to" [.prim .null]).1 = .throw (.InvalidStateError
        "Stately.js: Transitioned into invalid state: `function (x) \x7b return x; \x7d`.") ∧
      (m.dispatch "to" [.object 9 (.str "nowhere")]).1 = .throw (.InvalidStateError
        "Stately.js: Transitioned into invalid state: `function (x) \x7b return x; \x7d`.") :=
  ⟨_, rfl, rfl, rfl, rfl, by decide, by decide⟩

/-! ## Options -/

theorem runEvent_stateOptions (m : Machine) (s e : String) (args : List Val) :
    (runEvent m s e args).2.stateOptions = m.stateOptions := by
  rcases runEvent_state m s e args with h | ⟨hd, -, tr, h⟩ | ⟨hd, -, -, tr, h⟩ <;> rw [h]

theorem call_stateOptions (m : Machine) (mem : Member) (args : List Val) :
    (mem.call m args).2.stateOptions = m.stateOptions := by
  rcases call_state m mem args with h | ⟨s, e, h⟩
  · rw [h]
  · rw [h, runEvent_stateOptions]

theorem notHandled_off (m : Machine) (e : String) (b : Bool)
    (hoff : m.stateOptions.invalidEventErrors = false) :
    notHandled m e b = (.normal .stateMachine, m) := by
  simp [notHandled, hoff]

theorem call_no_invalidEvent (m : Machine) (mem : Member) (args : List Val) (msg : String)
    (hoff : m.stateOptions.invalidEventErrors = false) :
    (mem.call m args).1 ≠ .throw (.InvalidEventError msg) := by
  induction mem with
  | absent => simp [Member.call]
  | getMachineState =>
      simp only [Member.call]
      cases hv : m.currentState with
      | prim p => cases p <;> simp [readName, Val.name]
      | state k => simp [readName]
      | object id n => simp [readName]
  | transition k e next ih =>
      by_cases hc : Val.state k ≠ m.currentState
      · cases next with
        | absent => simp [Member.call, hc, notHandled_off m e _ hoff]
        | getMachineState =>
            simp only [Member.call, if_pos hc]
            cases hv : m.currentState with
            | prim p => cases p <;> simp [readName, Val.name, notHandled_off m e _ hoff]
            | state k => simp [readName, notHandled_off m e _ hoff]
            | object id n => simp [readName, notHandled_off m e _ hoff]
        | transition k2 e2 n2 =>
            rw [call_transition_other m k e k2 e2 n2 args hc]
            have hso := call_stateOptions m (.transition k2 e2 n2) args
            rcases hr : (Member.transition k2 e2 n2).call m args with ⟨r1, m1⟩
            rw [hr] at ih hso
            cases r1 with
            | normal v =>
                have hoff1 : m1.stateOptions.invalidEventErrors = false := by
                  simp only [] at hso
                  rw [hso, hoff]
                simp [notHandled_off m1 e _ hoff1]
            | throw err => exact ih
      · have hc1 : m.currentState = .state k := by
          by_contra h1
          exact hc (fun h2 => h1 h2.symm)
        rw [call_transition_current m k e next args hc1]
        exact runEvent_not_invalidEvent m k e args msg

theorem results_no_invalidEvent (m : Machine) (events : List (String × List Val))
    (hoff : m.stateOptions.invalidEventErrors = false) :
    ∀ r ∈ m.results events, ∀ msg, r ≠ .throw (.InvalidEventError msg) := by
  induction events generalizing m with
  | nil => simp [Machine.results]
  | cons ev rest ih =>
      obtain ⟨e, args⟩ := ev
      intro r hr msg
      simp only [Machine.results, List.mem_cons] at hr
      rcases hr with hr | hr
      · rw [hr]
        exact call_no_invalidEvent m _ args msg hoff
      · have hoff1 : (m.dispatch e args).2.stateOptions.invalidEventErrors = false := by
          unfold Machine.dispatch
          rw [call_stateOptions, hoff]
        exact ih _ hoff1 r hr msg

theorem Stately_stateOptions {states : States} {options : Options} {m : Machine}
    (h : Stately states options = .normal m) : m.stateOptions = handleOptions options := by
  unfold Stately at h
  simp only [] at h
  split at h
  · cases h
  · rw [← Completion.normal.inj h]

/-- C14: without options and with a bare callback `cb`, `invalidEventErrors` is
`false`, and no call of any run on the machine throws `InvalidEventError`; and
`Stately (states, cb)` is the same machine as `Stately (states, options)` for
the options object that holds `onTransition: cb`, so that every run on the two
gives the same results, the same trace of notifications and the same current state. -/
theorem C14_default_options (states : States) (cb : Callback)
    (events : List (String × List Val)) :
    (handleOptions .other).invalidEventErrors = false ∧
    (handleOptions (.function cb)).invalidEventErrors = false ∧
    (∀ options m, (options = .other ∨ options = .function cb) →
      Stately states options = .normal m →
      ∀ r ∈ m.results events, ∀ msg, r ≠ .throw (.InvalidEventError msg)) ∧
    Stately states (.function cb) = Stately states (.object (some cb) none) ∧
    (∀ m1 m2, Stately states (.function cb) = .normal m1 →
      Stately states (.object (some cb) none) = .normal m2 →
      m1.results events = m2.results events ∧
      (m1.run events).trace = (m2.run events).trace ∧
      (m1.run events).currentState = (m2.run events).currentState) := by
  refine ⟨rfl, rfl, ?_, rfl, ?_⟩
  · intro options m ho hm
    apply results_no_invalidEvent
    rw [Stately_stateOptions hm]
    rcases ho with ho | ho <;> rw [ho] <;> rfl
  · intro m1 m2 h1 h2
    have h12 : m1 = m2 := Completion.normal.inj (h1.symm.trans h2)
    rw [h12]
    exact ⟨rfl, rfl, rfl⟩

/-! ## The facade's own member -/

theorem owners_nil_root (mem : Member) (h : mem.owners = []) : mem.root = mem := by
  cases mem with
  | absent => rfl
  | getMachineState => rfl
  | transition k e n => simp [Member.owners] at h

theorem Built.member_undefined {states : States} {options : Options} {m : Machine}
    (hb : Built states options m) {e : String} (hnone : ¬ ∃ k, Defines states k e) :
    getMember m.stateMachine e = initialMember e := by
  have ho : (getMember m.stateMachine e).owners = [] := by
    apply List.eq_nil_iff_forall_not_mem.2
    intro x hx
    exact hnone ⟨x, (hb.owners e x).1 hx⟩
  have hr := owners_nil_root _ ho
  rw [← hr, hb.member, chainOf_root, initialMember_root]

/-- When no state defines an event called `getMachineState`, the call
`facade.getMachineState ()` returns the name of the current state. -/
theorem facade_getMachineState (states : States) (options : Options) (m : Machine)
    (args : List Val)
    (hb : Built states options m)
    (hnone : ¬ ∃ k, Defines states k "getMachineState") :
    m.dispatch "getMachineState" args = (.normal (.value m.currentState.name), m) := by
  unfold Machine.dispatch
  rw [hb.member_undefined hnone]
  simp [initialMember, Member.call, readName_object hb.2.2.2]

/-- C16, failing input: in the machine built from `shadowing`, state `b` defines
an event called `getMachineState`. In the first state `a` the call
`facade.getMachineState ()` returns the facade, not the name `a`; and once the
machine is in `b`, the same call runs the handler of `b` and moves the machine
to `a`. -/
theorem C16_failing_input :
    ∃ m, Stately shadowing .other = .normal m ∧
      getMachineState m = .normal (.str "a") ∧
      (m.dispatch "getMachineState" []).1 = .normal .stateMachine ∧
      getMachineState (m.run [("go", [])]) = .normal (.str "b") ∧
      ((m.run [("go", [])]).dispatch "getMachineState" []).1 = .normal .stateMachine ∧
      ((m.run [("go", [])]).dispatch "getMachineState" []).2.currentState = .state "a" :=
  ⟨_, rfl, rfl, rfl, rfl, rfl, rfl⟩

/-! ## The members of the facade -/

theorem keys_setProp {α : Type} (o : List (String × α)) (k : String) (v : α) :
    (setProp o k v).map Prod.fst =
      if k ∈ o.map Prod.fst then o.map Prod.fst else o.map Prod.fst ++ [k] := by
  induction o with
  | nil => simp [setProp]
  | cons p rest ih =>
      obtain ⟨k0, v0⟩ := p
      by_cases h0 : k0 = k
      · subst h0
        simp [setProp]
      · have h1 : ¬ k = k0 := fun h => h0 h.symm
        by_cases h2 : k ∈ rest.map Prod.fst
        · simp only [setProp, if_neg h0, List.map_cons, ih, if_pos h2, List.mem_cons, h1,
            false_or]
        · simp only [setProp, if_neg h0, List.map_cons, ih, if_neg h2, List.mem_cons, h1,
            false_or]
          simp

theorem mem_keys_setProp {α : Type} (o : List (String × α)) (k x : String) (v : α) :
    x ∈ (setProp o k v).map Prod.fst ↔ x = k ∨ x ∈ o.map Prod.fst := by
  rw [keys_setProp]
  split_ifs with h
  · constructor
    · exact Or.inr
    · rintro (h1 | h1)
      · rw [h1]
        exact h
      · exact h1
  · simp only [List.mem_append, List.mem_singleton]
    tauto

theorem nodup_keys_setProp {α : Type} (o : List (String × α)) (k : String) (v : α)
    (h : (o.map Prod.fst).Nodup) : ((setProp o k v).map Prod.fst).Nodup := by
  rw [keys_setProp]
  split_ifs with h1
  · exact h
  · exact List.Nodup.append h (List.nodup_singleton k) (by
      intro x hx hk
      rw [List.mem_singleton] at hk
      rw [hk] at hx
      exact h1 hx)

theorem keys_registerEvents (stateName x : String) (props : StateObj)
    (sm : List (String × Member)) :
    x ∈ (registerEvents stateName props sm).map Prod.fst ↔
      x ∈ sm.map Prod.fst ∨ ∃ v, (x, v) ∈ props ∧ v.isFunction = true := by
  induction props generalizing sm with
  | nil => simp [registerEvents]
  | cons p rest ih =>
      obtain ⟨e, v⟩ := p
      by_cases hf : v.isFunction = true
      · simp only [registerEvents, hf, if_true, ih, mem_keys_setProp, List.mem_cons]
        constructor
        · rintro ((h | h) | ⟨w, hw, hwf⟩)
          · exact Or.inr ⟨v, Or.inl (by rw [h]), hf⟩
          · exact Or.inl h
          · exact Or.inr ⟨w, Or.inr hw, hwf⟩
        · rintro (h | ⟨w, hw | hw, hwf⟩)
          · exact Or.inl (Or.inr h)
          · exact Or.inl (Or.inl (congrArg Prod.fst hw))
          · exact Or.inr ⟨w, hw, hwf⟩
      · rw [registerEvents, if_neg hf, ih]
        simp only [List.mem_cons]
        constructor
        · rintro (h | ⟨w, hw, hwf⟩)
          · exact Or.inl h
          · exact Or.inr ⟨w, Or.inr hw, hwf⟩
        · rintro (h | ⟨w, hw | hw, hwf⟩)
          · exact Or.inl h
          · have hwv : w = v := congrArg Prod.snd hw
            rw [hwv] at hwf
            exact absurd hwf hf
          · exact Or.inr ⟨w, hw, hwf⟩

theorem nodup_registerEvents (stateName : String) (props : StateObj)
    (sm : List (String × Member)) (h : (sm.map Prod.fst).Nodup) :
    ((registerEvents stateName props sm).map Prod.fst).Nodup := by
  induction props generalizing sm with
  | nil => exact h
  | cons p rest ih =>
      obtain ⟨e, v⟩ := p
      by_cases hf : v.isFunction = true
      · simp only [registerEvents, hf, if_true]
        exact ih _ (nodup_keys_setProp sm e _ h)
      · rw [registerEvents, if_neg hf]
        exact ih _ h

theorem keys_registerStates (x : String) (states : States) (b : Build) :
    x ∈ (registerStates b states).stateMachine.map Prod.fst ↔
      x ∈ b.stateMachine.map Prod.fst ∨ ∃ k, Defines states k x := by
  induction states generalizing b with
  | nil => simp [registerStates, Defines]
  | cons entry rest ih =>
      obtain ⟨k0, o⟩ := entry
      rw [registerStates, ih]
      simp only [registerState, keys_registerEvents]
      unfold Defines
      constructor
      · rintro ((h | ⟨v, hv, hf⟩) | ⟨k, o', v, ho, hv, hf⟩)
        · exact Or.inl h
        · exact Or.inr ⟨k0, o, v, List.mem_cons_self _ _, hv, hf⟩
        · exact Or.inr ⟨k, o', v, List.mem_cons_of_mem _ ho, hv, hf⟩
      · rintro (h | ⟨k, o', v, ho, hv, hf⟩)
        · exact Or.inl (Or.inl h)
        · rcases List.mem_cons.1 ho with ho | ho
          · have h2 : o' = o := congrArg Prod.snd ho
            exact Or.inl (Or.inr ⟨v, h2 ▸ hv, hf⟩)
          · exact Or.inr ⟨k, o', v, ho, hv, hf⟩

theorem nodup_registerStates (states : States) (b : Build)
    (h : (b.stateMachine.map Prod.fst).Nodup) :
    ((registerStates b states).stateMachine.map Prod.fst).Nodup := by
  induction states generalizing b with
  | nil => exact h
  | cons entry rest ih =>
      rw [registerStates]
      exact ih _ (nodup_registerEvents _ _ _ h)

/-- C18: in a built machine, the member of the facade under a name is a
decorator exactly when some state of the specification holds a function under
that name; the property names of the facade are `getMachineState` and these
names, each one once. A name under which the states hold only values that are
no functions is no property of the facade. -/
theorem C18_event_methods (states : States) (options : Options) (m : Machine)
    (hb : Built states options m) :
    (∀ e, (∃ k e' n, getMember m.stateMachine e = .transition k e' n) ↔
      ∃ k, Defines states k e) ∧
    (∀ e, e ∈ m.stateMachine.map Prod.fst ↔
      e = "getMachineState" ∨ ∃ k, Defines states k e) ∧
    (m.stateMachine.map Prod.fst).Nodup := by
  refine ⟨?_, ?_, ?_⟩
  · intro e
    constructor
    · rintro ⟨k, e', n, h⟩
      exact ⟨k, (hb.owners e k).1 (by rw [h]; simp [Member.owners])⟩
    · rintro ⟨k, hk⟩
      exact owners_transition _ k ((hb.owners e k).2 hk)
  · intro e
    rw [hb.2.2.1, keys_registerStates]
    simp [Build.init]
  · rw [hb.2.2.1]
    exact nodup_registerStates states _ (by simp [Build.init])

/-- C18, witness: the facade of `mixed` has the members `getMachineState`, `go`
and `back`; `label`, which is no function, is not among them. -/
theorem C18_event_methods_witness :
    (∀ e, (∃ k e' n, getMember (machineAt mixed .other (.state "a")).stateMachine e
        = .transition k e' n) ↔ ∃ k, Defines mixed k e) ∧
    (∀ e, e ∈ (machineAt mixed .other (.state "a")).stateMachine.map Prod.fst ↔
      e = "getMachineState" ∨ ∃ k, Defines mixed k e) ∧
    ((machineAt mixed .other (.state "a")).stateMachine.map Prod.fst).Nodup :=
  C18_event_methods mixed .other (machineAt mixed .other (.state "a")) ⟨rfl, rfl, rfl, rfl⟩

/-! ## The chain of decorators and the list walk -/

theorem mem_pairsIn (k e k' : String) (h : Handler) (o : StateObj) :
    (k', h) ∈ pairsIn k e o ↔ k' = k ∧ (e, PropVal.fn h) ∈ o := by
  induction o with
  | nil => simp [pairsIn]
  | cons p rest ih =>
      obtain ⟨e0, v⟩ := p
      cases v with
      | data d =>
          simp only [pairsIn, ih, List.mem_cons, Prod.mk.injEq]
          constructor
          · rintro ⟨h1, h2⟩
            exact ⟨h1, Or.inr h2⟩
          · rintro ⟨h1, h2 | h2⟩
            · exact absurd h2.2 (by simp)
            · exact ⟨h1, h2⟩
      | fn h0 =>
          by_cases he : e0 = e
          · subst he
            simp only [pairsIn, if_true, List.mem_cons, ih, Prod.mk.injEq, PropVal.fn.injEq,
              true_and]
            constructor
            · rintro (⟨h1, h2⟩ | ⟨h1, h2⟩)
              · exact ⟨h1, Or.inl h2⟩
              · exact ⟨h1, Or.inr h2⟩
            · rintro ⟨h1, h2 | h2⟩
              · exact Or.inl ⟨h1, h2⟩
              · exact Or.inr ⟨h1, h2⟩
          · have he' : ¬ e = e0 := fun h1 => he h1.symm
            simp only [pairsIn, if_neg he, ih, List.mem_cons, Prod.mk.injEq, he', false_and,
              false_or]

theorem mem_pairsOf (e k : String) (h : Handler) (states : States) :
    (k, h) ∈ pairsOf e states ↔ ∃ o, (k, o) ∈ states ∧ (e, PropVal.fn h) ∈ o := by
  induction states with
  | nil => simp [pairsOf]
  | cons entry rest ih =>
      obtain ⟨k0, o0⟩ := entry
      simp only [pairsOf, List.mem_append, mem_pairsIn, ih, List.mem_cons, Prod.mk.injEq]
      constructor
      · rintro (⟨h1, h2⟩ | ⟨o, h1, h2⟩)
        · exact ⟨o0, Or.inl ⟨h1, rfl⟩, h2⟩
        · exact ⟨o, Or.inr h1, h2⟩
      · rintro ⟨o, ⟨h1, h2⟩ | h1, h3⟩
        · exact Or.inl ⟨h1, h2 ▸ h3⟩
        · exact Or.inr ⟨o, h1, h3⟩

theorem findCurrent_some {cur : Val} {pairs : List (String × Handler)} {k : String}
    {h : Handler} (hf : findCurrent cur pairs = some (k, h)) :
    (k, h) ∈ pairs ∧ Val.state k = cur := by
  induction pairs with
  | nil => simp [findCurrent] at hf
  | cons p rest ih =>
      obtain ⟨k0, h0⟩ := p
      by_cases hc : Val.state k0 = cur
      · simp only [findCurrent, if_pos hc, Option.some.injEq, Prod.mk.injEq] at hf
        obtain ⟨h1, h2⟩ := hf
        subst h1
        subst h2
        exact ⟨List.mem_cons_self _ _, hc⟩
      · simp only [findCurrent, if_neg hc] at hf
        exact ⟨List.mem_cons_of_mem _ (ih hf).1, (ih hf).2⟩

theorem findCurrent_none {cur : Val} {pairs : List (String × Handler)}
    (hf : findCurrent cur pairs = none) : ∀ k h, (k, h) ∈ pairs → Val.state k ≠ cur := by
  induction pairs with
  | nil => simp
  | cons p rest ih =>
      obtain ⟨k0, h0⟩ := p
      by_cases hc : Val.state k0 = cur
      · simp [findCurrent, hc] at hf
      · simp only [findCurrent, if_neg hc] at hf
        intro k h hm
        rcases List.mem_cons.1 hm with h1 | h1
        · have h2 : k = k0 := congrArg Prod.fst h1
          rw [h2]
          exact hc
        · exact ih hf k h h1

theorem getProp_of_mem_nodup {α : Type} (o : List (String × α)) (k : String) (v : α)
    (hn : (o.map Prod.fst).Nodup) (h : (k, v) ∈ o) : getProp o k = some v := by
  induction o with
  | nil => simp at h
  | cons p rest ih =>
      obtain ⟨k0, v0⟩ := p
      simp only [List.map_cons, List.nodup_cons] at hn
      rcases List.mem_cons.1 h with h1 | h1
      · have h2 : k = k0 := congrArg Prod.fst h1
        have h3 : v = v0 := congrArg Prod.snd h1
        simp [getProp, h2, h3]
      · have hk : k ∈ rest.map Prod.fst := List.mem_map.2 ⟨(k, v), h1, rfl⟩
        have hne : ¬ k0 = k := fun h2 => hn.1 (h2 ▸ hk)
        simp only [getProp, if_neg hne]
        exact ih hn.2 h1

theorem store_get_not_mem (states : States) (b : Build) (k : String)
    (h : k ∉ states.map Prod.fst) :
    getProp (registerStates b states).statesStore k = getProp b.statesStore k := by
  induction states generalizing b with
  | nil => rfl
  | cons entry rest ih =>
      obtain ⟨k0, o⟩ := entry
      simp only [List.map_cons, List.mem_cons, not_or] at h
      rw [registerStates, ih _ h.2]
      have hne : ¬ k0 = k := fun h1 => h.1 h1.symm
      simp [registerState, getProp_setProp, hne]

theorem store_get (states : States) (b : Build) (k : String) (o : StateObj)
    (hn : (states.map Prod.fst).Nodup) (h : (k, o) ∈ states) :
    getProp (registerStates b states).statesStore k
      = some (setProp o "name" (.data (.prim (.str k)))) := by
  induction states generalizing b with
  | nil => simp at h
  | cons entry rest ih =>
      obtain ⟨k0, o0⟩ := entry
      simp only [List.map_cons, List.nodup_cons] at hn
      rw [registerStates]
      rcases List.mem_cons.1 h with h1 | h1
      · have h2 : k = k0 := congrArg Prod.fst h1
        have h3 : o = o0 := congrArg Prod.snd h1
        subst h2
        subst h3
        rw [store_get_not_mem _ _ _ hn.1]
        simp [registerState, getProp_setProp]
      · exact ih _ hn.2 h1

theorem Built.handler_of_mem {states : States} {options : Options} {m : Machine}
    (hb : Built states options m) (hw : WellFormed states) {k e : String} {o : StateObj}
    {h : Handler} (hname : e ≠ "name") (ho : (k, o) ∈ states)
    (he : (e, PropVal.fn h) ∈ o) : m.handler k e = some h := by
  unfold Machine.handler
  rw [hb.2.1, store_get states _ k o hw.1 ho]
  have hne : ¬ "name" = e := fun h1 => hname h1.symm
  simp only [Option.bind, getProp_setProp, if_neg hne]
  rw [getProp_of_mem_nodup o e _ (hw.2 k o ho) he]

theorem runEvent_commit {m : Machine} {s e : String} {h : Handler} (args : List Val)
    (hh : m.handler s e = some h) : runEvent m s e args = commit m s e h args := by
  unfold commit
  cases hv : invalidNextState m.statesStore (h.apply args) with
  | true => simp [runEvent_invalid args hh hv]
  | false => simp [runEvent_valid args hh hv]

/-- For an event name that some state defines, other than `name` and than what
the facade holds before the loop (`getMachineState` and the inherited names),
the chain of decorators does what the list walk of the specification does:
same completion, same machine afterwards. -/
theorem chain_refines_listWalk (states : States) (options : Options) (m : Machine)
    (e : String) (args : List Val)
    (hb : Built states options m)
    (hw : WellFormed states)
    (hg : e ≠ "getMachineState")
    (_hproto : e ∉ objectPrototype)
    (hname : e ≠ "name")
    (hsome : ∃ k, Defines states k e) :
    m.dispatch e args = listWalk states m e args := by
  unfold listWalk
  cases hf : findCurrent m.currentState (pairsOf e states) with
  | some p =>
      obtain ⟨k, h⟩ := p
      obtain ⟨hmem, hcur⟩ := findCurrent_some hf
      obtain ⟨o, ho, he⟩ := (mem_pairsOf e k h states).1 hmem
      have hh := hb.handler_of_mem hw hname ho he
      rw [hb.dispatch_handled args hcur.symm ⟨o, .fn h, ho, he, rfl⟩, runEvent_commit args hh]
  | none =>
      have hno : ∀ k, Defines states k e → Val.state k ≠ m.currentState := by
        rintro k ⟨o, v, ho, hv, hfn⟩
        cases v with
        | data d => simp [PropVal.isFunction] at hfn
        | fn h => exact findCurrent_none hf k h ((mem_pairsOf e k h states).2 ⟨o, ho, hv⟩)
      rw [hb.dispatch_unhandled args hsome hno]
      simp only [initialMember, if_neg hg, unhandled, notHandled, readName_object hb.2.2.2]
      cases m.stateOptions.invalidEventErrors <;> simp

/-- C15, failing input: in the machine built from `shadowing` with
`invalidEventErrors` on, the current state `a` has no pair in the list of the
event `getMachineState`; the list walk throws `InvalidEventError`, the chain of
decorators returns the facade. And in the machine built from `named`, the list
walk runs the handler of `a` for `name`, where the chain throws a `TypeError`. -/
theorem C15_failing_input :
    (∃ m, Stately shadowing withErrors = .normal m ∧
      (m.dispatch "getMachineState" []).1 = .normal .stateMachine ∧
      (listWalk shadowing m "getMachineState" []).1 = .throw (.InvalidEventError
        "Stately.js: Invalid event: `getMachineState` for current state: `a`.")) ∧
    (∃ m, Stately named .other = .normal m ∧
      (m.dispatch "name" []).1 = .throw .TypeError ∧
      (listWalk named m "name" []).1 = .normal .stateMachine) :=
  ⟨⟨_, rfl, rfl, by decide⟩, ⟨_, rfl, rfl, rfl⟩⟩

/-! ## The order of registration -/

theorem Alike.handler {m1 m2 : Machine} (ha : Alike m1 m2) (s e : String) :
    m1.handler s e = m2.handler s e := by
  unfold Machine.handler
  rw [ha.2.2.2 s]

theorem Alike.invalid {m1 m2 : Machine} (ha : Alike m1 m2) (v : Val) :
    invalidNextState m1.statesStore v = invalidNextState m2.statesStore v := by
  unfold invalidNextState storeHas
  rw [ha.2.2.2]

theorem Alike.runEvent {m1 m2 : Machine} (ha : Alike m1 m2) (s e : String)
    (args : List Val) :
    (runEvent m1 s e args).1 = (runEvent m2 s e args).1 ∧
      Alike (runEvent m1 s e args).2 (runEvent m2 s e args).2 := by
  have hh := ha.handler s e
  obtain ⟨ho, hc, ht, hs⟩ := ha
  cases h1 : m1.handler s e with
  | none =>
      rw [h1] at hh
      rw [runEvent_none args h1, runEvent_none args hh.symm]
      exact ⟨rfl, ho, hc, ht, hs⟩
  | some h =>
      rw [h1] at hh
      have hi := Alike.invalid ⟨ho, hc, ht, hs⟩ (h.apply args)
      cases hv : invalidNextState m1.statesStore (h.apply args) with
      | true =>
          rw [hv] at hi
          rw [runEvent_invalid args h1 hv, runEvent_invalid args hh.symm hi.symm]
          exact ⟨rfl, ho, hc, by simp [ht], hs⟩
      | false =>
          rw [hv] at hi
          rw [runEvent_valid args h1 hv, runEvent_valid args hh.symm hi.symm]
          exact ⟨rfl, ho, rfl, by simp [ht, hc, ho], hs⟩

theorem Alike.notHandled {m1 m2 : Machine} (ha : Alike m1 m2) (e : String) (b : Bool) :
    (notHandled m1 e b).1 = (notHandled m2 e b).1 := by
  unfold StatelyJS.notHandled
  rw [ha.1, ha.2.1]
  split_ifs
  · cases readName m2.currentState <;> rfl
  · rfl

theorem Alike.unhandled {m1 m2 : Machine} (ha : Alike m1 m2) (e : String) (root : Member) :
    (unhandled m1 e root).1 = (unhandled m2 e root).1 ∧
      Alike (unhandled m1 e root).2 (unhandled m2 e root).2 := by
  have hsnd : ∀ m : Machine, (StatelyJS.unhandled m e root).2 = m := by
    intro m
    cases root with
    | absent => exact notHandled_snd m e false
    | transition k e2 n => exact notHandled_snd m e false
    | getMachineState =>
        unfold StatelyJS.unhandled
        cases readName m.currentState with
        | normal name => exact notHandled_snd m e _
        | throw err => rfl
  rw [hsnd m1, hsnd m2]
  refine ⟨?_, ha⟩
  cases root with
  | absent => exact ha.notHandled e false
  | transition k e2 n => exact ha.notHandled e false
  | getMachineState =>
      unfold StatelyJS.unhandled
      rw [ha.2.1]
      cases readName m2.currentState with
      | normal name => exact ha.notHandled e _
      | throw err => rfl

theorem Alike.initial_alike {m1 m2 : Machine} (ha : Alike m1 m2) (e : String) (args : List Val) :
    ((initialMember e).call m1 args).1 = ((initialMember e).call m2 args).1 ∧
      Alike ((initialMember e).call m1 args).2 ((initialMember e).call m2 args).2 := by
  unfold initialMember
  split
  · simp only [Member.call]
    rw [ha.2.1]
    cases readName m2.currentState <;> exact ⟨rfl, ha⟩
  · exact ⟨rfl, ha⟩

theorem Alike.dispatch_alike {states1 states2 : States} {options : Options} {m1 m2 : Machine}
    (ha : Alike m1 m2) (hb1 : Built states1 options m1) (hb2 : Built states2 options m2)
    (hd : ∀ k e, Defines states1 k e ↔ Defines states2 k e) (e : String) (args : List Val) :
    (m1.dispatch e args).1 = (m2.dispatch e args).1 ∧
      Alike (m1.dispatch e args).2 (m2.dispatch e args).2 := by
  by_cases hsome : ∃ k, Defines states1 k e
  · have hsome2 : ∃ k, Defines states2 k e := by
      obtain ⟨k, hk⟩ := hsome
      exact ⟨k, (hd k e).1 hk⟩
    by_cases hcur : ∃ s, m1.currentState = .state s ∧ Defines states1 s e
    · obtain ⟨s, hc, hds⟩ := hcur
      rw [hb1.dispatch_handled args hc hds,
        hb2.dispatch_handled args (ha.2.1 ▸ hc) ((hd s e).1 hds)]
      exact ha.runEvent s e args
    · have hno1 : ∀ k, Defines states1 k e → Val.state k ≠ m1.currentState :=
        fun k hk heq => hcur ⟨k, heq.symm, hk⟩
      have hno2 : ∀ k, Defines states2 k e → Val.state k ≠ m2.currentState :=
        fun k hk heq => hcur ⟨k, ha.2.1.trans heq.symm, (hd k e).2 hk⟩
      rw [hb1.dispatch_unhandled args hsome hno1, hb2.dispatch_unhandled args hsome2 hno2]
      exact ha.unhandled e _
  · have hnone2 : ¬ ∃ k, Defines states2 k e := by
      rintro ⟨k, hk⟩
      exact hsome ⟨k, (hd k e).2 hk⟩
    unfold Machine.dispatch
    rw [hb1.member_undefined hsome, hb2.member_undefined hnone2]
    exact ha.initial_alike e args

theorem Alike.run_alike {states1 states2 : States} {options : Options} {m1 m2 : Machine}
    (ha : Alike m1 m2) (hs1 : Built states1 options m1) (hs2 : Built states2 options m2)
    (hd : ∀ k e, Defines states1 k e ↔ Defines states2 k e)
    (events : List (String × List Val)) :
    m1.results events = m2.results events ∧ Alike (m1.run events) (m2.run events) := by
  induction events generalizing m1 m2 with
  | nil => exact ⟨rfl, ha⟩
  | cons ev rest ih =>
      obtain ⟨e, args⟩ := ev
      obtain ⟨hr, ha1⟩ := ha.dispatch_alike hs1 hs2 hd e args
      obtain ⟨hrs, har⟩ := ih ha1 (hs1.dispatch_built e args) (hs2.dispatch_built e args)
      simp only [Machine.results, Machine.run]
      exact ⟨by rw [hr, hrs], har⟩

theorem Defines_perm {states1 states2 : States} (hp : states1.Perm states2) (k e : String) :
    Defines states1 k e ↔ Defines states2 k e := by
  unfold Defines
  constructor
  · rintro ⟨o, v, ho, hv⟩
    exact ⟨o, v, hp.mem_iff.1 ho, hv⟩
  · rintro ⟨o, v, ho, hv⟩
    exact ⟨o, v, hp.mem_iff.2 ho, hv⟩

theorem store_perm {states1 states2 : States} (hp : states1.Perm states2)
    (hn : (states1.map Prod.fst).Nodup) (k : String) :
    getProp (registerStates Build.init states1).statesStore k
      = getProp (registerStates Build.init states2).statesStore k := by
  have hn2 : (states2.map Prod.fst).Nodup := (hp.map Prod.fst).nodup_iff.1 hn
  by_cases hk : k ∈ states1.map Prod.fst
  · obtain ⟨⟨k', o⟩, ho, hko⟩ := List.mem_map.1 hk
    simp only [] at hko
    subst hko
    rw [store_get states1 _ k' o hn ho, store_get states2 _ k' o hn2 (hp.mem_iff.1 ho)]
  · have hk2 : k ∉ states2.map Prod.fst := fun h => hk ((hp.map Prod.fst).mem_iff.2 h)
    rw [store_get_not_mem _ _ _ hk, store_get_not_mem _ _ _ hk2]

/-- C19: two specifications with distinct keys, the same first state, and the
same remaining states in another order: the two machines built from them with
the same options give, on every sequence of dispatches, the same results
(values and errors), the same trace of handler invocations and notifications,
and the same `getMachineState ()`. -/
theorem C19_registration_order (stateName : String) (o : StateObj) (rest1 rest2 : States)
    (options : Options) (events : List (String × List Val))
    (hperm : rest1.Perm rest2)
    (hnodup : (((stateName, o) :: rest1).map Prod.fst).Nodup) :
    ∃ m1 m2, Stately ((stateName, o) :: rest1) options = .normal m1 ∧
      Stately ((stateName, o) :: rest2) options = .normal m2 ∧
      m1.results events = m2.results events ∧
      (m1.run events).trace = (m2.run events).trace ∧
      getMachineState (m1.run events) = getMachineState (m2.run events) := by
  have hp : ((stateName, o) :: rest1).Perm ((stateName, o) :: rest2) := hperm.cons _
  refine ⟨_, _, Stately_cons stateName o rest1 options, Stately_cons stateName o rest2 options, ?_⟩
  have ha : Alike
      { stateOptions := handleOptions options,
        statesStore := (registerStates Build.init ((stateName, o) :: rest1)).statesStore,
        stateMachine := (registerStates Build.init ((stateName, o) :: rest1)).stateMachine,
        currentState := .state stateName,
        trace := [.onTransition (handleOptions options).onTransition .undefined .undefined
          (.str stateName)] }
      { stateOptions := handleOptions options,
        statesStore := (registerStates Build.init ((stateName, o) :: rest2)).statesStore,
        stateMachine := (registerStates Build.init ((stateName, o) :: rest2)).stateMachine,
        currentState := .state stateName,
        trace := [.onTransition (handleOptions options).onTransition .undefined .undefined
          (.str stateName)] } :=
    ⟨rfl, rfl, rfl, store_perm hp hnodup⟩
  obtain ⟨hr, har⟩ := ha.run_alike ⟨rfl, rfl, rfl, rfl⟩ ⟨rfl, rfl, rfl, rfl⟩
    (Defines_perm hp) events
  exact ⟨hr, har.2.2.1, by unfold getMachineState; rw [har.2.1]⟩

/-- C19, witness: `ring` and `ringSwapped`. -/
theorem C19_registration_order_witness :
    ∃ m1 m2, Stately ring .other = .normal m1 ∧
      Stately ringSwapped .other = .normal m2 ∧
      m1.results [("next", []), ("stay", []), ("next", [])]
        = m2.results [("next", []), ("stay", []), ("next", [])] ∧
      (m1.run [("next", []), ("stay", []), ("next", [])]).trace
        = (m2.run [("next", []), ("stay", []), ("next", [])]).trace ∧
      getMachineState (m1.run [("next", []), ("stay", []), ("next", [])])
        = getMachineState (m2.run [("next", []), ("stay", []), ("next", [])]) :=
  C19_registration_order "a" [("next", .fn (returning (.state "b")))]
    [("b", [("next", .fn (returning (.state "c")))]),
     ("c", [("next", .fn (returning (.state "a"))), ("stay", .fn (returning (.state "c")))])]
    [("c", [("next", .fn (returning (.state "a"))), ("stay", .fn (returning (.state "c")))]),
     ("b", [("next", .fn (returning (.state "c")))])]
    .other [("next", []), ("stay", []), ("next", [])]
    (List.Perm.swap _ _ _) (by decide)

/-! ## Handlers that call the facade -/

theorem callWith_transition_current
    (run : Machine → String → String → List Val → Completion Ret × Machine)
    (m : Machine) (k e : String) (next : Member) (args : List Val)
    (hc : m.currentState = .state k) :
    (Member.transition k e next).callWith run m args = run m k e args := by
  cases next <;> simp [Member.callWith, hc]

theorem callWith_transition_other
    (run : Machine → String → String → List Val → Completion Ret × Machine)
    (m : Machine) (k e k2 e2 : String) (n2 : Member)
    (args : List Val) (hne : Val.state k ≠ m.currentState) :
    (Member.transition k e (.transition k2 e2 n2)).callWith run m args =
      match (Member.transition k2 e2 n2).callWith run m args with
      | (.normal r, m1) => notHandled m1 e r.truthy
      | (.throw err, m1) => (.throw err, m1) := by
  rw [Member.callWith, if_pos hne]
  intro h
  cases h

theorem callWith_owned
    (run : Machine → String → String → List Val → Completion Ret × Machine)
    (m : Machine) (e s : String) (args : List Val) (mem : Member)
    (hf : mem.ForEvent e) (hs : s ∈ mem.owners) (hc : m.currentState = .state s)
    (hrun : (run m s e args).1 = .normal .stateMachine ∨
      ∃ err, (run m s e args).1 = .throw err) :
    mem.callWith run m args = run m s e args := by
  induction mem with
  | absent => simp [Member.owners] at hs
  | getMachineState => simp [Member.owners] at hs
  | transition k e' next ih =>
      obtain ⟨he, hn⟩ := hf
      subst he
      by_cases hk : k = s
      · subst hk
        exact callWith_transition_current run m k e' next args hc
      · have hs1 : s ∈ next.owners := by
          simp only [Member.owners, List.mem_cons] at hs
          rcases hs with h | h
          · exact absurd h.symm hk
          · exact h
        have hne : Val.state k ≠ m.currentState := by
          rw [hc]
          intro h
          exact hk (Val.state.inj h)
        have ih1 := ih hn hs1
        cases next with
        | absent => simp [Member.owners] at hs1
        | getMachineState => simp [Member.owners] at hs1
        | transition k2 e2 n2 =>
            rw [callWith_transition_other run m k e' k2 e2 n2 args hne, ih1]
            rcases hrun with h | ⟨err, h⟩
            · rcases hr : run m s e' args with ⟨r, m1⟩
              rw [hr] at h
              simp only [] at h
              subst h
              simp [Ret.truthy, notHandled_true]
            · rcases hr : run m s e' args with ⟨r, m1⟩
              rw [hr] at h
              simp only [] at h
              subst h
              rfl

theorem callWith_state
    (run : Machine → String → String → List Val → Completion Ret × Machine)
    (m : Machine) (mem : Member) (args : List Val) :
    (mem.callWith run m args).2 = m ∨
      ∃ s e, (mem.callWith run m args).2 = (run m s e args).2 := by
  induction mem with
  | absent => exact Or.inl rfl
  | getMachineState =>
      left
      simp only [Member.callWith]
      cases readName m.currentState <;> rfl
  | transition k e next ih =>
      by_cases hc : Val.state k ≠ m.currentState
      · cases next with
        | absent =>
            left
            simp [Member.callWith, hc, notHandled_snd]
        | getMachineState =>
            left
            simp only [Member.callWith, if_pos hc]
            cases readName m.currentState <;> simp [notHandled_snd]
        | transition k2 e2 n2 =>
            rw [callWith_transition_other run m k e k2 e2 n2 args hc]
            rcases hr : (Member.transition k2 e2 n2).callWith run m args with ⟨r, m1⟩
            rw [hr] at ih
            cases r with
            | normal v => simpa [notHandled_snd] using ih
            | throw err => simpa using ih
      · right
        have hc1 : m.currentState = .state k := by
          by_contra h
          exact hc (fun h2 => h h2.symm)
        exact ⟨k, e, by rw [callWith_transition_current run m k e next args hc1]⟩

theorem call_eq_callWith (m : Machine) (mem : Member) (args : List Val) :
    mem.call m args = mem.callWith runEvent m args := by
  induction mem with
  | absent => rfl
  | getMachineState => rfl
  | transition k e next ih =>
      cases next with
      | absent => simp [Member.call, Member.callWith]
      | getMachineState => simp [Member.call, Member.callWith]
      | transition k2 e2 n2 =>
          by_cases hc : Val.state k ≠ m.currentState
          · rw [call_transition_other m k e k2 e2 n2 args hc,
              callWith_transition_other runEvent m k e k2 e2 n2 args hc, ih]
          · have hc1 : m.currentState = .state k := by
              by_contra h
              exact hc (fun h2 => h h2.symm)
            rw [call_transition_current m k e _ args hc1,
              callWith_transition_current runEvent m k e _ args hc1]

theorem runEventN_none {nesting : Nesting}
    {dispatch : Machine → String → List Val → Completion Ret × Machine}
    {m : Machine} {s e : String} (args : List Val) (hh : m.handler s e = none) :
    runEventN nesting dispatch m s e args = (.throw .TypeError, m) := by
  unfold Machine.handler at hh
  unfold runEventN
  split at hh
  · cases hh
  · rfl

theorem runEventN_throw {nesting : Nesting}
    {dispatch : Machine → String → List Val → Completion Ret × Machine}
    {m m1 : Machine} {s e : String} {h : Handler} {err : Error} (args : List Val)
    (hh : m.handler s e = some h)
    (hn : nestedCalls dispatch { m with trace := m.trace ++ [.handler s e args] }
      (nesting s e args) = (.throw err, m1)) :
    runEventN nesting dispatch m s e args = (.throw err, m1) := by
  unfold runEventN
  rw [handler_lookup hh]
  simp only [hn]

theorem runEventN_normal {nesting : Nesting}
    {dispatch : Machine → String → List Val → Completion Ret × Machine}
    {m m1 : Machine} {s e : String} {h : Handler} (args : List Val)
    (hh : m.handler s e = some h)
    (hn : nestedCalls dispatch { m with trace := m.trace ++ [.handler s e args] }
      (nesting s e args) = (.normal (), m1)) :
    runEventN nesting dispatch m s e args =
      if invalidNextState m1.statesStore (h.apply args) then
        (.throw (.InvalidStateError (invalidStateMessage h)), m1)
      else
        (.normal .stateMachine,
          { m1 with
            currentState := h.apply args,
            trace := m1.trace ++
              (if m1.currentState ≠ h.apply args then
                [.onTransition m1.stateOptions.onTransition (.str e)
                  m1.currentState.name (h.apply args).name]
              else []) }) := by
  unfold runEventN
  rw [handler_lookup hh]
  simp only [hn]
  by_cases hv : invalidNextState m1.statesStore (h.apply args) = true
  · simp [hv]
  · by_cases hne : m1.currentState = h.apply args
    · simp [hv, hne]
    · simp [hv, hne]

theorem runEventN_result (nesting : Nesting)
    (dispatch : Machine → String → List Val → Completion Ret × Machine)
    (m : Machine) (s e : String) (args : List Val) :
    (runEventN nesting dispatch m s e args).1 = .normal .stateMachine ∨
      ∃ err, (runEventN nesting dispatch m s e args).1 = .throw err := by
  cases hh : m.handler s e with
  | none => exact Or.inr ⟨_, by rw [runEventN_none args hh]⟩
  | some h =>
      rcases hn : nestedCalls dispatch { m with trace := m.trace ++ [.handler s e args] }
        (nesting s e args) with ⟨r, m1⟩
      cases r with
      | throw err => exact Or.inr ⟨err, by rw [runEventN_throw args hh hn]⟩
      | normal u =>
          rw [runEventN_normal args hh hn]
          by_cases hv : invalidNextState m1.statesStore (h.apply args) = true
          · rw [if_pos hv]
            exact Or.inr ⟨_, rfl⟩
          · rw [if_neg hv]
            exact Or.inl rfl

theorem SameClosure.refl (m : Machine) : SameClosure m m := ⟨rfl, rfl, rfl⟩

theorem SameClosure.trans {m1 m2 m3 : Machine} (h12 : SameClosure m1 m2)
    (h23 : SameClosure m2 m3) : SameClosure m1 m3 :=
  ⟨h23.1.trans h12.1, h23.2.1.trans h12.2.1, h23.2.2.trans h12.2.2⟩

theorem nestedCalls_closure
    (dispatch : Machine → String → List Val → Completion Ret × Machine)
    (hd : ∀ m e args, SameClosure m (dispatch m e args).2)
    (m : Machine) (calls : List (String × List Val)) :
    SameClosure m (nestedCalls dispatch m calls).2 := by
  induction calls generalizing m with
  | nil => exact SameClosure.refl m
  | cons c rest ih =>
      obtain ⟨e, args⟩ := c
      have h1 := hd m e args
      simp only [nestedCalls]
      rcases hr : dispatch m e args with ⟨r, m1⟩
      rw [hr] at h1
      cases r with
      | normal v => exact h1.trans (ih m1)
      | throw err => exact h1

theorem runEventN_closure (nesting : Nesting)
    (dispatch : Machine → String → List Val → Completion Ret × Machine)
    (hd : ∀ m e args, SameClosure m (dispatch m e args).2)
    (m : Machine) (s e : String) (args : List Val) :
    SameClosure m (runEventN nesting dispatch m s e args).2 := by
  cases hh : m.handler s e with
  | none =>
      rw [runEventN_none args hh]
      exact SameClosure.refl m
  | some h =>
      have h1 := nestedCalls_closure dispatch hd
        { m with trace := m.trace ++ [.handler s e args] } (nesting s e args)
      rcases hn : nestedCalls dispatch { m with trace := m.trace ++ [.handler s e args] }
        (nesting s e args) with ⟨r, m1⟩
      rw [hn] at h1
      have h2 : SameClosure m m1 := h1
      cases r with
      | throw err =>
          rw [runEventN_throw args hh hn]
          exact h2
      | normal u =>
          rw [runEventN_normal args hh hn]
          by_cases hv : invalidNextState m1.statesStore (h.apply args) = true
          · rw [if_pos hv]
            exact h2
          · rw [if_neg hv]
            exact h2

theorem callWith_closure
    (run : Machine → String → String → List Val → Completion Ret × Machine)
    (m : Machine) (mem : Member) (args : List Val)
    (hrun : ∀ s e, SameClosure m (run m s e args).2) :
    SameClosure m (mem.callWith run m args).2 := by
  rcases callWith_state run m mem args with h | ⟨s, e, h⟩
  · rw [h]
    exact SameClosure.refl m
  · rw [h]
    exact hrun s e

theorem dispatchN_closure (nesting : Nesting) (fuel : Nat) (m : Machine) (e : String)
    (args : List Val) : SameClosure m (dispatchN nesting fuel m e args).2 := by
  induction fuel generalizing m e args with
  | zero => exact SameClosure.refl m
  | succ fuel ih =>
      simp only [dispatchN]
      exact callWith_closure _ m _ args
        (fun s e' => runEventN_closure nesting _ (fun m1 e1 a1 => ih m1 e1 a1) m s e' args)

/-- With handlers that call the facade, a dispatch of an event that the current
state defines runs lines 83-108 for the current state. -/
theorem Built.dispatchN_handled {states : States} {options : Options} {m : Machine}
    (hb : Built states options m) (nesting : Nesting) (fuel : Nat) {s e : String}
    (args : List Val) (hc : m.currentState = .state s) (hd : Defines states s e) :
    dispatchN nesting (fuel + 1) m e args
      = runEventN nesting (dispatchN nesting fuel) m s e args := by
  simp only [dispatchN]
  apply callWith_owned _ m e s args _ _ _ hc (runEventN_result _ _ m s e args)
  · rw [hb.member]
    exact chainOf_forEvent e states _ (initialMember_forEvent e)
  · exact (hb.owners e s).2 hd

/-- When no handler calls the facade, `dispatchN` with some fuel is
`Machine.dispatch`. -/
theorem dispatchN_pure (nesting : Nesting) (hn : ∀ s e args, nesting s e args = [])
    (fuel : Nat) (m : Machine) (e : String) (args : List Val) :
    dispatchN nesting (fuel + 1) m e args = m.dispatch e args := by
  have hrun : runEventN nesting (dispatchN nesting fuel) = runEvent := by
    funext m1 s e1 a1
    cases hh : m1.handler s e1 with
    | none => rw [runEventN_none a1 hh, runEvent_none a1 hh]
    | some h =>
        have hnc : nestedCalls (dispatchN nesting fuel)
            { m1 with trace := m1.trace ++ [.handler s e1 a1] } (nesting s e1 a1)
            = (.normal (), { m1 with trace := m1.trace ++ [.handler s e1 a1] }) := by
          rw [hn]
          rfl
        rw [runEventN_normal a1 hh hnc]
        cases hv : invalidNextState m1.statesStore (h.apply a1) with
        | true => simp [runEvent_invalid a1 hh hv, hv]
        | false =>
            rw [runEvent_valid a1 hh hv]
            by_cases hne : m1.currentState = h.apply a1
            · simp [hv, hne]
            · simp [hv, hne]
  simp only [dispatchN, hrun]
  unfold Machine.dispatch
  rw [call_eq_callWith]

/-- C17: let the handler of the current state `s` for `e` make one call on the
facade before it returns, let that call return and leave the machine in state
`n`, and let the handler then return the state registered under the non-empty
name `r`. Then the outer dispatch returns the facade, the current state is `r`,
and after the effects of the inner call the trace gains one call
`onTransition (e, n, r)` exactly when `r` is another state than `n`. -/
theorem C17_nested_dispatch (states : States) (options : Options) (m m2 : Machine)
    (nesting : Nesting) (fuel : Nat) (s e e2 n r : String) (h : Handler)
    (args args2 : List Val)
    (hb : Built states options m)
    (hc : m.currentState = .state s)
    (hh : m.handler s e = some h)
    (hnest : nesting s e args = [(e2, args2)])
    (hinner : dispatchN nesting fuel { m with trace := m.trace ++ [.handler s e args] }
      e2 args2 = (.normal .stateMachine, m2))
    (hN : m2.currentState = .state n)
    (hr : h.apply args = .state r)
    (hreg : r ∈ states.map Prod.fst)
    (hne : r ≠ "") :
    (dispatchN nesting (fuel + 1) m e args).1 = .normal .stateMachine ∧
      (dispatchN nesting (fuel + 1) m e args).2.currentState = .state r ∧
      (dispatchN nesting (fuel + 1) m e args).2.trace = m2.trace ++
        (if r ≠ n then
          [.onTransition (handleOptions options).onTransition (.str e) (.str n) (.str r)]
        else []) := by
  have hcl : SameClosure m m2 := by
    have h1 := dispatchN_closure nesting fuel
      { m with trace := m.trace ++ [.handler s e args] } e2 args2
    rw [hinner] at h1
    exact h1
  have hnc : nestedCalls (dispatchN nesting fuel)
      { m with trace := m.trace ++ [.handler s e args] } (nesting s e args)
      = (.normal (), m2) := by
    rw [hnest]
    simp [nestedCalls, hinner]
  have hv : invalidNextState m2.statesStore (h.apply args) = false := by
    rw [hcl.2.1, hr]
    exact hb.valid_state hreg hne
  rw [hb.dispatchN_handled nesting fuel args hc (hb.handler_defines hh),
    runEventN_normal args hh hnc, hv]
  simp only [Bool.false_eq_true, if_false, true_and]
  refine ⟨hr, ?_⟩
  by_cases hrn : r = n
  · simp [hr, hN, hrn]
  · have hnr : ¬ n = r := fun h1 => hrn h1.symm
    simp [hr, hN, hrn, hnr, hcl.1, hb.1, Val.name]

/-- C17, witness: in `relay`, the handler of `a` for `start` calls `hop`, which
moves the machine to `b`, and returns `c`: the machine ends in `c` and the outer
dispatch notifies `("start", "b", "c")`. -/
theorem C17_nested_dispatch_witness :
    (dispatchN relayNesting 2 (machineAt relay .other (.state "a")) "start" []).1
        = .normal .stateMachine ∧
      (dispatchN relayNesting 2 (machineAt relay .other (.state "a")) "start" []).2.currentState
        = .state "c" ∧
      (dispatchN relayNesting 2 (machineAt relay .other (.state "a")) "start" []).2.trace
        = [.handler "a" "start" [], .handler "a" "hop" [],
           .onTransition .default (.str "hop") (.str "a") (.str "b")] ++
          (if "c" ≠ "b" then
            [.onTransition (handleOptions .other).onTransition (.str "start") (.str "b")
              (.str "c")]
          else []) :=
  C17_nested_dispatch relay .other (machineAt relay .other (.state "a"))
    (dispatchN relayNesting 1
      { machineAt relay .other (.state "a") with
        trace := (machineAt relay .other (.state "a")).trace ++ [.handler "a" "start" []] }
      "hop" []).2
    relayNesting 1 "a" "start" "hop" "b" "c" (returning (.state "c")) [] []
    ⟨rfl, rfl, rfl, rfl⟩ rfl rfl rfl rfl rfl rfl (by decide) (by decide)

end StatelyJS
